import Mathlib

/-!
Verification of TheMappingOverseer's ingestion/normalization pipeline and
drop-detection scan (src/overseer/io/loader.py and src/overseer/rules/checks.py)
against its natural-language specification.

The embedding is a shallow model of the Python source:

* polars `Float64` cells are modelled by `FVal`: an exact rational together
  with the IEEE-754 special values `nan` and signed infinity.  All the
  quantities compared in the claims (change rates at threshold boundaries,
  division by a zero predecessor) are either exactly representable or are
  compared against the same rounded literal on both sides, so exact rational
  arithmetic agrees with the double-precision computation on every input the
  claims mention.  The single zero of `ℚ` models IEEE `+0.0`.
* a polars DataFrame is a list of named, typed columns (`DF`); a column is
  either a `Float64` column (`ColData.nums`) or a `Utf8` column
  (`ColData.strs`), each cell optional (`none` models a polars `null`).
* each input CSV file is a `SrcFile` recording the observable results of the
  three library readers the loader invokes on it: the header read
  (`pl.read_csv(f, n_rows=0)` with its pandas fallback), the tolerant body
  decode (`_read_csv_with_fallback`), and the pandas text sampling used by
  type inference (`pd.read_csv(f, nrows=..., dtype=str)`).  A `none` field
  means every tier of that reader failed on the file.
* fallible code returns `Except`.
-/

namespace Overseer

/-! ### Definitions -/

/-- Exact rational subtraction implemented through `mkRat` so that it
reduces inside the kernel (the library's `Rat.sub` does not); proved equal
to the field subtraction of `ℚ` in `qsub_eq`. -/
def qsub (a b : ℚ) : ℚ :=
  mkRat (a.num * (b.den : Int) - b.num * (a.den : Int)) (a.den * b.den)

/-- Exact rational division implemented through `mkRat`; proved equal to
the field division of `ℚ` in `qdiv_eq`. -/
def qdiv (a b : ℚ) : ℚ :=
  if 0 ≤ b.num then mkRat (a.num * (b.den : Int)) (a.den * b.num.natAbs)
  else mkRat (-(a.num * (b.den : Int))) (a.den * b.num.natAbs)

/-- Model of an IEEE-754 double: `nan`, signed infinity (`inf true` is `+∞`),
or a finite value carried exactly as a rational. -/
inductive FVal where
  | nan : FVal
  | inf : Bool → FVal
  | fin : ℚ → FVal
deriving DecidableEq

/-- IEEE subtraction on `FVal` (finite arithmetic is exact). -/
def fsub : FVal → FVal → FVal
  | .nan, _ => .nan
  | .inf _, .nan => .nan
  | .fin _, .nan => .nan
  | .inf s, .inf t => if s = t then .nan else .inf s
  | .inf s, .fin _ => .inf s
  | .fin _, .inf t => .inf (!t)
  | .fin a, .fin b => .fin (qsub a b)

/-- IEEE division on `FVal`: a nonzero finite value divided by (positive)
zero yields a signed infinity, `0/0` yields `nan`. -/
def fdiv : FVal → FVal → FVal
  | .nan, _ => .nan
  | .inf _, .nan => .nan
  | .fin _, .nan => .nan
  | .inf _, .inf _ => .nan
  | .inf s, .fin b => if b < 0 then .inf (!s) else .inf s
  | .fin _, .inf _ => .fin 0
  | .fin a, .fin b =>
    if b = 0 then (if a = 0 then .nan else .inf (decide (0 < a)))
    else .fin (qdiv a b)

/-- IEEE strict less-than on `FVal`: every comparison with `nan` is false. -/
def flt : FVal → FVal → Bool
  | .nan, _ => false
  | .inf _, .nan => false
  | .fin _, .nan => false
  | .inf s, .inf t => !s && t
  | .inf s, .fin _ => !s
  | .fin _, .inf t => t
  | .fin a, .fin b => decide (a < b)

/-- A polars column: a `Float64` column or a `Utf8` column; `none` is `null`. -/
inductive ColData where
  | nums : List (Option FVal) → ColData
  | strs : List (Option String) → ColData
deriving DecidableEq

/-- Number of cells in a column. -/
def colLen : ColData → Nat
  | .nums vs => vs.length
  | .strs vs => vs.length

/-- Leading `n` cells of a column (`DataFrame.head`). -/
def colTake (n : Nat) : ColData → ColData
  | .nums vs => .nums (vs.take n)
  | .strs vs => .strs (vs.take n)

/-- A polars DataFrame: named, typed columns in order. -/
structure DF where
  cols : List (String × ColData)
deriving DecidableEq

/-- Column names of a frame, in order (`df.columns`). -/
def dfNames (df : DF) : List String := df.cols.map Prod.fst

/-- Height of a frame, read off its first column (polars frames are
rectangular, which `dfWF` captures). -/
def dfHeight (df : DF) : Nat :=
  match df.cols with
  | [] => 0
  | p :: _ => colLen p.2

/-- Rectangularity invariant every polars DataFrame satisfies. -/
def dfWF (df : DF) : Prop := ∀ p ∈ df.cols, colLen p.2 = dfHeight df

/-- First column with the given name (polars column lookup). -/
def findCol {β : Type} (c : String) : List (String × β) → Option β
  | [] => none
  | p :: ps => if p.1 = c then some p.2 else findCol c ps

/-- `DataFrame.head n`: truncate every column to its leading `n` cells. -/
def truncDF (df : DF) (n : Nat) : DF :=
  ⟨df.cols.map (fun p => (p.1, colTake n p.2))⟩

/-- Extract the `ok` payload of an `Except` (used to state closed facts
about fallible computations decidably). -/
def exOk {ε α : Type} : Except ε α → Option α
  | .ok a => some a
  | .error _ => none

/-- Extract the `error` payload of an `Except`. -/
def exErr {ε α : Type} : Except ε α → Option ε
  | .error e => some e
  | .ok _ => none

/-! ## The Drop Detector (src/overseer/rules/checks.py, detect_drops) -/

/-- Error taxonomy of the detector, per the spec's §7: the eager path raises
`ValueError("Column {col} not found in dataframe.")` and the lazy path lets
polars raise `ColumnNotFoundError`; both name the missing column, which the
constructor records.  A present but non-numeric column makes the polars
arithmetic raise instead. -/
inductive DetectError where
  | columnNotFound : String → DetectError
  | typeUnsupported : String → DetectError
deriving DecidableEq

/-- Pair every element with its predecessor (the seed is the predecessor of
the first element). -/
def withPrev {α : Type} : Option α → List (Option α) → List (Option α × Option α)
  | _, [] => []
  | p, c :: cs => (p, c) :: withPrev c cs

/-- Null-propagating subtraction of cells. -/
def osub : Option FVal → Option FVal → Option FVal
  | some a, some b => some (fsub a b)
  | _, _ => none

/-- Null-propagating division of cells. -/
def odiv : Option FVal → Option FVal → Option FVal
  | some a, some b => some (fdiv a b)
  | _, _ => none

/-- polars `Series.diff()`: elementwise `x[i] - x[i-1]`, null for the first
element (no predecessor) and whenever either operand is null. -/
def polarsDiff (xs : List (Option FVal)) : List (Option FVal) :=
  (withPrev none xs).map (fun pc => osub pc.2 pc.1)

/-- polars `Series.shift(1)`: the predecessor of each element, null first. -/
def polarsShift (xs : List (Option FVal)) : List (Option FVal) :=
  (withPrev none xs).map Prod.fst

/-- `change_rate` column of `detect_drops`: `(col.diff()) / (col.shift(1))`. -/
def changeRates (xs : List (Option FVal)) : List (Option FVal) :=
  List.zipWith odiv (polarsDiff xs) (polarsShift xs)

/-- The filter predicate `change_rate < -threshold`; a null change rate
fails the comparison, as does `nan`. -/
def flagCell (t : ℚ) : Option FVal → Bool
  | none => false
  | some c => flt c (.fin (-t))

/-- Keep the cells whose mask entry is `true` (polars `filter`). -/
def filterCells {α : Type} (mask : List Bool) (xs : List α) : List α :=
  (mask.zip xs).filterMap (fun p => if p.1 then some p.2 else none)

/-- Apply a row mask to a column. -/
def maskFilterCol (mask : List Bool) : ColData → ColData
  | .nums vs => .nums (filterCells mask vs)
  | .strs vs => .strs (filterCells mask vs)

/-- polars `with_columns` of a single column: replace the column in place
when the name already exists, otherwise append it. -/
def withColumn (cols : List (String × ColData)) (n : String) (cd : ColData) :
    List (String × ColData) :=
  if (findCol n cols).isSome then
    cols.map (fun p => if p.1 = n then (n, cd) else p)
  else cols ++ [(n, cd)]

/-- Model of `detect_drops(df, col, threshold)`: add the
`change_rate = col.diff() / col.shift(1)` column, then filter to rows with
`change_rate < -threshold`.  Both the eager and the lazy source path fail
when the column is missing (ValueError resp. ColumnNotFoundError). -/
def detect_drops (df : DF) (col : String) (t : ℚ) : Except DetectError DF :=
  match findCol col df.cols with
  | none => .error (.columnNotFound col)
  | some (.strs _) => .error (.typeUnsupported col)
  | some (.nums xs) =>
    let ch := changeRates xs
    let mask := ch.map (flagCell t)
    .ok ⟨(withColumn df.cols "change_rate" (.nums ch)).map
          (fun p => (p.1, maskFilterCol mask p.2))⟩

/-! Specification-side rendering of the change-rate computation, following
the spec's words: "compute for every row a
`change_rate = (value[i] - value[i-1]) / value[i-1]` using the immediately
preceding row in scan order; the first row of the whole sequence has an
undefined `change_rate`". -/

/-- Change rate of one row from its predecessor: null when the predecessor
or the value is missing, otherwise `(cur - prev) / prev` in IEEE
arithmetic. -/
def specChangeRate (prev cur : Option FVal) : Option FVal :=
  match prev, cur with
  | some p, some c => some (fdiv (fsub c p) p)
  | _, _ => none

/-- Change rates of a whole column, threading the predecessor; the seed is
the (missing) predecessor of the first row. -/
def specChangeList : Option FVal → List (Option FVal) → List (Option FVal)
  | _, [] => []
  | p, c :: cs => specChangeRate p c :: specChangeList c cs

/-! ## Claim C1 -/

/-- Input table exhibiting a zero predecessor followed by a negative value:
`total_count = [0, -1]`. -/
def c1df : DF := ⟨[("total_count", .nums [some (.fin 0), some (.fin (-1))])]⟩

/-- The spec's own worked example `[100, 95, 50, 52]` at threshold `0.05`. -/
def c1w : DF :=
  ⟨[("total_count",
     .nums [some (.fin 100), some (.fin 95), some (.fin 50), some (.fin 52)])]⟩

/-- The metric column of `c1w`. -/
def c1wxs : List (Option FVal) :=
  [some (.fin 100), some (.fin 95), some (.fin 50), some (.fin 52)]

/-! ## The loader (src/overseer/io/loader.py, load_metrics)

Errors raised by `load_metrics`, per the spec's §7 taxonomy:
`noFiles` is the `FileNotFoundError` when no CSV is found, `headerRead` the
`RuntimeError("Failed to read header for CSV ...")`, `decodeFail` the
`RuntimeError` raised when `_read_csv_with_fallback` exhausts all three
tiers, and `castFail` the polars `ComputeError` that a strict
`Expr.cast` raises while `with_columns` executes (it records the offending
cell text). -/
inductive LoadError where
  | noFiles : LoadError
  | headerRead : LoadError
  | decodeFail : LoadError
  | castFail : String → LoadError
deriving DecidableEq

/-- Canonical column type: `pl.Float64` or `pl.Utf8`. -/
inductive CType where
  | numeric : CType
  | text : CType
deriving DecidableEq

/-- One input CSV file, recorded through the observable results of the three
library readers the loader applies to it: `header` is the result of the
header read (`pl.read_csv(f, n_rows=0)` with its pandas fallback, `none`
when both fail), `decode` the result of the tolerant body decode
(`_read_csv_with_fallback`, `none` when all three tiers fail), and `sample`
the all-text pandas frame used by type inference
(`pd.read_csv(f, nrows=..., dtype=str)`, `none` when that read raises). -/
structure SrcFile where
  header : Option (List String)
  decode : Option DF
  sample : Option (List (String × List (Option String)))
deriving DecidableEq

/-! ### Numeric-literal recognition

The loader's regex `^[+-]?\d+(?:\.\d+)?$` (optional sign, digits, optional
decimal fraction), and the corresponding exact value for the strict cast. -/

/-- Strip one leading sign character; returns (negative?, rest). -/
def stripSign : List Char → Bool × List Char
  | '-' :: r => (true, r)
  | '+' :: r => (false, r)
  | r => (false, r)

/-- All characters are decimal digits. -/
def allDigits (cs : List Char) : Bool := cs.all Char.isDigit

/-- Split at the first decimal point, if any. -/
def splitFrac : List Char → List Char → Option (List Char × List Char)
  | [], _ => none
  | '.' :: rest, acc => some (acc.reverse, rest)
  | c :: rest, acc => splitFrac rest (c :: acc)

/-- Numeric value of a digit string. -/
def digitsToNat (cs : List Char) : Nat :=
  cs.foldl (fun a c => 10 * a + (c.toNat - 48)) 0

/-- Apply a sign to a natural number. -/
def condNeg (neg : Bool) (n : Nat) : Int :=
  if neg then -(n : Int) else (n : Int)

/-- The loader's numeric-literal test `^[+-]?\d+(?:\.\d+)?$`. -/
def isNumericLit (s : String) : Bool :=
  let sc := stripSign s.toList
  match splitFrac sc.2 [] with
  | none => !sc.2.isEmpty && allDigits sc.2
  | some (ip, fp) =>
    !ip.isEmpty && allDigits ip && !fp.isEmpty && allDigits fp

/-- Exact value of a numeric literal; `none` when the text is not a numeric
literal.  This models the parse performed by a strict polars
`Utf8 → Float64` cast on the literal forms relevant here. -/
def parseNum (s : String) : Option ℚ :=
  let sc := stripSign s.toList
  match splitFrac sc.2 [] with
  | none =>
    if !sc.2.isEmpty && allDigits sc.2 then
      some (mkRat (condNeg sc.1 (digitsToNat sc.2)) 1)
    else none
  | some (ip, fp) =>
    if !ip.isEmpty && allDigits ip && !fp.isEmpty && allDigits fp then
      some (mkRat (condNeg sc.1 (digitsToNat ip * 10 ^ fp.length + digitsToNat fp))
        (10 ^ fp.length))
    else none

/-! ### The Schema Normalizer (loader.py lines 184-205) -/

/-- Whether the frame has a column of this name. -/
def dfHasCol (df : DF) (c : String) : Bool := (findCol c df.cols).isSome

/-- A full-height column of typed nulls
(`pl.lit(None).cast(canonical_types.get(c, pl.Utf8))`). -/
def typedNullCol : CType → Nat → ColData
  | .numeric, h => .nums (List.replicate h none)
  | .text, h => .strs (List.replicate h none)

/-- Strict cast of one cell of a `Utf8` column to `Float64`; a null casts to
null, a non-numeric string raises (`ComputeError`). -/
def castCellNum : Option String → Except LoadError (Option FVal)
  | none => .ok none
  | some s =>
    match parseNum s with
    | some q => .ok (some (.fin q))
    | none => .error (.castFail s)

/-- Strict cast of all cells of a `Utf8` column to `Float64`. -/
def castCellsNum : List (Option String) → Except LoadError (List (Option FVal))
  | [] => .ok []
  | c :: cs =>
    match castCellNum c with
    | .error e => .error e
    | .ok v =>
      match castCellsNum cs with
      | .error e => .error e
      | .ok vs => .ok (v :: vs)

/-- Rendering of a `Float64` cell as text (`Float64 → Utf8` casts never
fail; the exact rendering is irrelevant to every claim). -/
def numRepr : FVal → String
  | .nan => "NaN"
  | .inf true => "inf"
  | .inf false => "-inf"
  | .fin q => toString q.num ++ "/" ++ toString q.den

/-- Strict polars cast of a column to a canonical type, as executed by
`with_columns` (the default `strict=True` raises on any failing cell). -/
def castStrict : CType → ColData → Except LoadError ColData
  | .numeric, .nums vs => .ok (.nums vs)
  | .numeric, .strs vs =>
    match castCellsNum vs with
    | .error e => .error e
    | .ok ws => .ok (.nums ws)
  | .text, .strs vs => .ok (.strs vs)
  | .text, .nums vs => .ok (.strs (vs.map (Option.map numRepr)))

/-- Lines 185-190: append the canonical columns missing from the batch as
full-height typed null columns. -/
def addMissing (ac : List String) (ct : String → CType) (df : DF) : DF :=
  ⟨df.cols ++ (ac.filter (fun c => !(dfHasCol df c))).map
      (fun c => (c, typedNullCol (ct c) (dfHeight df)))⟩

/-- Lines 192-202: cast every column whose name is canonical to its
canonical type (`canonical_types` has an entry for every canonical column,
so the source's `c in canonical_types` test is always true).  The `try`
in the source wraps only the construction of the cast expressions, which
cannot fail; the casts themselves execute inside `with_columns`, outside
the `try`, so one failing cast faults the whole batch — this models that
faithfully. -/
def castAll (ac : List String) (ct : String → CType) :
    List (String × ColData) → Except LoadError (List (String × ColData))
  | [] => .ok []
  | p :: rest =>
    match (if p.1 ∈ ac then castStrict (ct p.1) p.2 else .ok p.2) with
    | .error e => .error e
    | .ok cd =>
      match castAll ac ct rest with
      | .error e => .error e
      | .ok rest2 => .ok ((p.1, cd) :: rest2)

/-- Line 205: reorder to canonical column order, dropping non-canonical
columns (`df.select([pl.col(c) for c in all_cols])`; after `addMissing`
every canonical column is present). -/
def selectCols (ac : List String) (cols : List (String × ColData)) : DF :=
  ⟨ac.filterMap (fun c => (findCol c cols).map (fun cd => (c, cd)))⟩

/-- The Schema Normalizer: add missing canonical columns as typed nulls,
strictly cast canonical columns, reorder to canonical order. -/
def normalize (ac : List String) (ct : String → CType) (df : DF) :
    Except LoadError DF :=
  match castAll ac ct (addMissing ac ct df).cols with
  | .error e => .error e
  | .ok cols2 => .ok (selectCols ac cols2)

/-! ### The Header Scanner (loader.py lines 87-118) -/

/-- Fold new column names into the accumulator, first occurrence wins
position (the source's `seen` set together with the `all_cols` list). -/
def foldIns (acc : List String) (l : List String) : List String :=
  l.foldl (fun a c => if c ∈ a then a else a ++ [c]) acc

/-- The files examined by the header scan: `enumerate(csvs)` stops at
`max_files` when a file budget is set. -/
def scanned (files : List SrcFile) : Option Nat → List SrcFile
  | none => files
  | some m => files.take m

/-- Header-scan loop: a file whose header cannot be read is skipped under
the skip-bad-files policy and aborts the scan otherwise. -/
def headerFold (skip : Bool) : List SrcFile → List String → Except LoadError (List String)
  | [], acc => .ok acc
  | f :: fs, acc =>
    match f.header with
    | some cs => headerFold skip fs (foldIns acc cs)
    | none => if skip then headerFold skip fs acc else .error .headerRead

/-- Lines 113-118: ensure the mandatory metric column `total_count` is
present. -/
def addMandatory (cols : List String) : List String :=
  if "total_count" ∈ cols then cols else cols ++ ["total_count"]

/-- The Header Scanner: canonical column sequence of a run. -/
def headerScan (files : List SrcFile) (maxF : Option Nat) (skip : Bool) :
    Except LoadError (List String) :=
  match headerFold skip (scanned files maxF) [] with
  | .error e => .error e
  | .ok cols => .ok (addMandatory cols)

/-! ### The Type Inferrer (loader.py lines 120-161) -/

/-- The sampled cells of one column of one file: empty when the sampling
read failed (`except: continue`) or the file lacks the column
(`if col not in df_s.columns: continue`). -/
def sampleCellsOf (f : SrcFile) (col : String) : List (Option String) :=
  match f.sample with
  | none => []
  | some frame =>
    match findCol col frame with
    | none => []
    | some cells => cells

/-- Per-file votes for one column: (non-null samples, numeric matches)
among the first 200 sampled rows (`nrows=sample_rows`, `dropna`,
`ser.str.match(numeric_re)`). -/
def fileVotes (f : SrcFile) (col : String) : Nat × Nat :=
  let nn := ((sampleCellsOf f col).take 200).filterMap id
  (nn.length, (nn.filter isNumericLit).length)

/-- Total votes over the sampled files (`sample_files = csvs[:min(len(csvs), 5)]`
— note: NOT limited by `max_files`). -/
def inferVotes (files : List SrcFile) (col : String) : Nat × Nat :=
  (files.take 5).foldl
    (fun a f => (a.1 + (fileVotes f col).1, a.2 + (fileVotes f col).2)) (0, 0)

/-- The Type Inferrer's decision for one column.  The source compares the
float `numeric_votes / non_null_votes >= 0.95`; with at most 5·200 = 1000
samples the quotient is at least `1/20000` away from `0.95` whenever it
differs from it, far beyond double rounding error, and at equality both
sides round to the same double — so the exact rational comparison below is
faithful.  `mkRat v.2 v.1` is the exact quotient; `C8` proves the
fraction characterization. -/
def inferType (files : List SrcFile) (col : String) : CType :=
  let v := inferVotes files col
  if v.1 = 0 then .text
  else if mkRat 19 20 ≤ mkRat (Int.ofNat v.2) v.1 then .numeric else .text

/-- The canonical type assignment of a run (`canonical_types`). -/
def inferTypesOf (files : List SrcFile) : String → CType :=
  fun c => inferType files c

/-! ### The Streaming Chunk Writer (loader.py lines 163-226) -/

/-- `if max_files is not None and files_written >= max_files: break`. -/
def stopFiles (maxF : Option Nat) (written : Nat) : Bool :=
  match maxF with
  | none => false
  | some m => decide (m ≤ written)

/-- The writer loop over the remaining files; `tot` is `total_rows` and
`acc` the chunks written so far (most recent first).  Mirrors the source's
order of checks: file budget, decode, row budget with truncation,
normalize, write, post-write row-budget break. -/
def writeGo (ac : List String) (ct : String → CType) (sample maxF : Option Nat)
    (skip : Bool) : List SrcFile → Nat → List DF → Except LoadError (List DF)
  | [], _, acc => .ok acc.reverse
  | f :: fs, tot, acc =>
    if stopFiles maxF acc.length then .ok acc.reverse
    else
      match f.decode with
      | none =>
        if skip then writeGo ac ct sample maxF skip fs tot acc
        else .error .decodeFail
      | some df0 =>
        match sample with
        | none =>
          match normalize ac ct df0 with
          | .error e => .error e
          | .ok nb => writeGo ac ct sample maxF skip fs (tot + dfHeight nb) (nb :: acc)
        | some s =>
          if s ≤ tot then .ok acc.reverse
          else
            match normalize ac ct
                (if s - tot < dfHeight df0 then truncDF df0 (s - tot) else df0) with
            | .error e => .error e
            | .ok nb =>
              if s ≤ tot + dfHeight nb then .ok (nb :: acc).reverse
              else writeGo ac ct sample maxF skip fs (tot + dfHeight nb) (nb :: acc)

/-- The Streaming Chunk Writer: the ordered list of chunks written. -/
def writeChunks (ac : List String) (ct : String → CType) (sample maxF : Option Nat)
    (skip : Bool) (files : List SrcFile) : Except LoadError (List DF) :=
  writeGo ac ct sample maxF skip files 0 []

/-- Vertical concatenation of two schema-aligned frames. -/
def colAppend : ColData → ColData → ColData
  | .nums a, .nums b => .nums (a ++ b)
  | .strs a, .strs b => .strs (a ++ b)
  | .nums a, .strs _ => .nums a
  | .strs a, .nums _ => .strs a

/-- Vertical concatenation of two frames with equal schemas (the logical
table `pl.scan_parquet` exposes over consecutive chunks). -/
def vconcat (a b : DF) : DF :=
  ⟨List.zipWith (fun p q => (p.1, colAppend p.2 q.2)) a.cols b.cols⟩

/-- The Lazy Dataset Handle as a logical table: concatenation of all chunks
in sequence order. -/
def concatDF : List DF → DF
  | [] => ⟨[]⟩
  | c :: cs => cs.foldl vconcat c

/-- Total number of rows across chunks. -/
def sumRows (chunks : List DF) : Nat := (chunks.map dfHeight).sum

/-- Model of `load_metrics(metrics_dir, sample, max_files, skip_bad_files)`.
The directory listing is the list of `SrcFile`s; an empty listing raises
`FileNotFoundError`; schema discovery (header scan, then type inference
over the first five files of the FULL listing) precedes the writer loop;
zero written chunks yield `pl.DataFrame()` — an empty frame with NO
columns. -/
def load_metrics (files : List SrcFile) (sample maxF : Option Nat)
    (skip : Bool) : Except LoadError DF :=
  if files.isEmpty then .error .noFiles
  else
    match headerScan files maxF skip with
    | .error e => .error e
    | .ok ac =>
      match writeChunks ac (inferTypesOf files) sample maxF skip files with
      | .error e => .error e
      | .ok chunks => if chunks.isEmpty then .ok ⟨[]⟩ else .ok (concatDF chunks)

/-! ### The per-metric check loop (src/overseer/cli.py lines 37-46)

The anomaly-explanation quota and the LLM/report collaborators are out of
scope (spec §1); what is modelled is the control flow that catches a
detector failure per metric column and continues with the next one, and
skips metrics whose result is empty. -/

/-- polars `DataFrame.is_empty()`. -/
def dfIsEmpty (df : DF) : Bool := decide (dfHeight df = 0)

/-- The cli's check loop: one `detect_drops` call per requested metric
column, a failure (`except Exception: ... continue`) skips only that
column, an empty result is reported but contributes no anomalies. -/
def runChecks (df : DF) (metrics : List String) (t : ℚ) : List (String × DF) :=
  match metrics with
  | [] => []
  | m :: ms =>
    match detect_drops df m t with
    | .error _ => runChecks df ms t
    | .ok drops =>
      if dfIsEmpty drops then runChecks df ms t
      else (m, drops) :: runChecks df ms t

/-- Column-level cast succeedability: every string cell of a
canonically-numeric column is a numeric literal.  `normalize` succeeds on a
batch exactly when this holds of its canonical columns. -/
def cellCastOkNum : Option String → Bool
  | none => true
  | some s => isNumericLit s

/-- Whether the strict cast of a column to a type can succeed. -/
def colCastOk : CType → ColData → Bool
  | .numeric, .strs vs => vs.all cellCastOkNum
  | _, _ => true

/-- Whether every canonical column of the batch casts cleanly. -/
def dfCastOk (ac : List String) (ct : String → CType) (df : DF) : Bool :=
  df.cols.all (fun p => !(decide (p.1 ∈ ac)) || colCastOk (ct p.1) p.2)

/-! ## Claim C2: the schema-union property of the Header Scanner -/

/-- Specification-side first-occurrence deduplication: keep each name at
the position of its first occurrence. -/
def firstOccList : List String → List String
  | [] => []
  | c :: cs => c :: firstOccList (cs.filter (fun d => decide (d ≠ c)))
termination_by l => l.length
decreasing_by
  simp_wf
  exact Nat.lt_succ_of_le (List.length_filter_le _ _)

/-- A file declaring `date` and `total_count`. -/
def c2fA : SrcFile := ⟨some ["date", "total_count"], none, none⟩

/-- A file declaring `region` and `date` (overlapping the first). -/
def c2fB : SrcFile := ⟨some ["region", "date"], none, none⟩

/-- A file declaring only `date`: `total_count` is absent from every input
header and is never sampled. -/
def c2cf : SrcFile := ⟨some ["date"], none, none⟩

/-! ## Claim C3 -/

/-- Batch carrying the non-numeric text `oops` in the canonically Numeric
column `total_count`. -/
def c3bad : DF := ⟨[("total_count", .strs [some "oops"])]⟩

/-- Input batch for the C3 witness: an extra column the canonical set lacks
and a missing canonical column `region`. -/
def c3w : DF :=
  ⟨[("extra", .strs [some "z", some "w"]),
    ("total_count", .strs [some "7", some "8"])]⟩

/-- Canonical types for the C3 witness. -/
def c3ct : String → CType := fun c => if c = "total_count" then .numeric else .text

/-- Normalized result for the C3 witness. -/
def c3wout : DF :=
  ⟨[("total_count", .nums [some (.fin 7), some (.fin 8)]),
    ("region", .strs [none, none])]⟩

/-! ## Claim C5 -/

/-- A decodable CSV whose `total_count` column is numeric for the first 200
rows (the whole inference sample window) and carries the text `oops` at row
201: type inference classifies the column Numeric, then the strict cast of
row 201 fails. -/
def c5file : SrcFile :=
  ⟨some ["total_count"],
   some ⟨[("total_count", .strs (List.replicate 200 (some "1") ++ [some "oops"]))]⟩,
   some [("total_count", List.replicate 200 (some "1") ++ [some "oops"])]⟩

/-- A table with a single metric column `a`. -/
def c6df : DF := ⟨[("a", .nums [some (.fin 1), some (.fin 2)])]⟩

/-- Row count a file contributes when decoded. -/
def decodedRows (f : SrcFile) : Nat :=
  match f.decode with
  | some df => dfHeight df
  | none => 0

/-- Total decoded row count of a list of files. -/
def sumDecoded (fs : List SrcFile) : Nat := (fs.map decodedRows).sum

/-- A decodable file with two numeric rows. -/
def c4f1 : SrcFile :=
  ⟨some ["total_count"],
   some ⟨[("total_count", .nums [some (.fin 1), some (.fin 2)])]⟩, none⟩

/-- A decodable file with two more numeric rows. -/
def c4f2 : SrcFile :=
  ⟨some ["total_count"],
   some ⟨[("total_count", .nums [some (.fin 3), some (.fin 4)])]⟩, none⟩

/-- A decodable file (one row, `c1 = 1`) whose sampled value is numeric but
whose decoded cell `oops` cannot be cast to the Numeric canonical type. -/
def c4bad : SrcFile :=
  ⟨some ["total_count"], some ⟨[("total_count", .strs [some "oops"])]⟩,
   some [("total_count", [some "1"])]⟩

/-! ## Claim C7 -/

/-- A readable, decodable file: one row `total_count = 3`. -/
def c7f1 : SrcFile :=
  ⟨some ["total_count"], some ⟨[("total_count", .strs [some "3"])]⟩,
   some [("total_count", [some "3"])]⟩

/-- A file whose header is unreadable but whose body decodes (tier 3 of the
body decoder tolerates strictly more than either header reader). -/
def c7f2 : SrcFile :=
  ⟨none, some ⟨[("total_count", .strs [some "4"])]⟩, none⟩

/-- A file unreadable and undecodable under every tier. -/
def c7w : SrcFile := ⟨none, none, none⟩

/-! ## Claim C8 -/

/-- The sampled cells of a list of files for one column, following the
spec's words: at most 5 files, at most 200 rows per file, values as text,
nulls dropped. -/
def specSamplesOf (l : List SrcFile) (col : String) : List String :=
  ((l.map (fun f => (sampleCellsOf f col).take 200)).flatten).filterMap id

/-- Spec-side non-null samples of a run: the first five files only. -/
def specNonNullSamples (files : List SrcFile) (col : String) : List String :=
  specSamplesOf (files.take 5) col

/-- Spec-side classification: Text on zero non-null samples, else Numeric
iff the fraction of numeric-literal matches is at least `0.95 = 19/20`. -/
def specInferType (files : List SrcFile) (col : String) : CType :=
  if (specNonNullSamples files col).length = 0 then .text
  else if (19 : ℚ) / 20 ≤
      (((specNonNullSamples files col).filter isNumericLit).length : ℚ) /
        ((specNonNullSamples files col).length : ℚ)
  then .numeric else .text

/-! ## Claims C9 and C10 -/

/-- A file every reader fails on. -/
def c9f : SrcFile := ⟨none, none, none⟩

/-- File 1: header declares `total_count`, body decodes to one numeric row,
but its sampled value `x` is non-numeric. -/
def c10f1 : SrcFile :=
  ⟨some ["total_count"], some ⟨[("total_count", .strs [some "1"])]⟩,
   some [("total_count", [some "x"])]⟩

/-- File 2: excluded from header scanning and ingestion by `max_files = 1`,
yet its 19 numeric samples for `total_count` participate in type
inference. -/
def c10f2 : SrcFile :=
  ⟨some ["region"], some ⟨[("region", .strs [some "west"])]⟩,
   some [("total_count", List.replicate 19 (some "2"))]⟩

/-! ### Theorems -/

theorem qsub_eq (a b : ℚ) : qsub a b = a - b := by
  have ha : ((a.den : ℚ)) ≠ 0 := by
    exact_mod_cast a.den_nz
  have hb : ((b.den : ℚ)) ≠ 0 := by
    exact_mod_cast b.den_nz
  rw [qsub, Rat.mkRat_eq_div]
  conv_rhs => rw [← Rat.num_div_den a, ← Rat.num_div_den b]
  rw [div_sub_div _ _ ha hb]
  push_cast
  ring_nf

theorem qdiv_eq (a b : ℚ) : qdiv a b = a / b := by
  rcases eq_or_ne b 0 with hb | hb
  · subst hb
    simp [qdiv, Rat.mkRat_eq_div]
  · have hnum : b.num ≠ 0 := Rat.num_ne_zero.mpr hb
    have ha : ((a.den : ℚ)) ≠ 0 := by exact_mod_cast a.den_nz
    have hbd : ((b.den : ℚ)) ≠ 0 := by exact_mod_cast b.den_nz
    have hnq : ((b.num : ℚ)) ≠ 0 := by exact_mod_cast hnum
    rw [qdiv]
    split_ifs with hs
    · rw [Rat.mkRat_eq_div]
      push_cast
      rw [Int.cast_natAbs]
      rw [abs_of_nonneg hs]
      conv_rhs => rw [← Rat.num_div_den a, ← Rat.num_div_den b]
      field_simp
    · rw [Rat.mkRat_eq_div]
      push_cast
      rw [Int.cast_natAbs]
      rw [abs_of_neg (not_le.mp hs)]
      conv_rhs => rw [← Rat.num_div_den a, ← Rat.num_div_den b]
      field_simp

/-- Sanity: on finite operands `fsub` is exactly rational subtraction. -/
theorem fsub_fin (a b : ℚ) : fsub (.fin a) (.fin b) = .fin (a - b) := by
  rw [fsub, qsub_eq]

/-- Sanity: on finite operands with a nonzero divisor `fdiv` is exactly
rational division. -/
theorem fdiv_fin (a b : ℚ) (hb : b ≠ 0) : fdiv (.fin a) (.fin b) = .fin (a / b) := by
  rw [fdiv, if_neg hb, qdiv_eq]

theorem exOk_eq_some {ε α : Type} {e : Except ε α} {a : α} :
    exOk e = some a ↔ e = .ok a := by
  cases e <;> simp [exOk]

theorem exErr_eq_some {ε α : Type} {e : Except ε α} {x : ε} :
    exErr e = some x ↔ e = .error x := by
  cases e <;> simp [exErr]

theorem zipWith_map_same {α β γ δ : Type} (f : β → γ → δ) (g : α → β) (h : α → γ)
    (l : List α) : List.zipWith f (l.map g) (l.map h) = l.map (fun x => f (g x) (h x)) := by
  induction l with
  | nil => rfl
  | cons x xs ih => simp [ih]

theorem odiv_osub_eq_specChangeRate (p c : Option FVal) :
    odiv (osub c p) p = specChangeRate p c := by
  cases p <;> cases c <;> rfl

theorem changeRates_eq_spec (xs : List (Option FVal)) :
    changeRates xs = specChangeList none xs := by
  have h1 : ∀ (p : Option FVal) (l : List (Option FVal)),
      (withPrev p l).map (fun pc => specChangeRate pc.1 pc.2) = specChangeList p l := by
    intro p l
    induction l generalizing p with
    | nil => rfl
    | cons c cs ih => simp only [withPrev, List.map_cons, specChangeList, ih]
  calc changeRates xs
      = (withPrev none xs).map (fun pc => odiv (osub pc.2 pc.1) pc.1) := by
        simp only [changeRates, polarsDiff, polarsShift, zipWith_map_same]
    _ = (withPrev none xs).map (fun pc => specChangeRate pc.1 pc.2) := by
        simp only [odiv_osub_eq_specChangeRate]
    _ = specChangeList none xs := h1 none xs

theorem findCol_isSome_iff_mem {β : Type} (c : String) (l : List (String × β)) :
    (findCol c l).isSome ↔ c ∈ l.map Prod.fst := by
  induction l with
  | nil => simp [findCol]
  | cons p ps ih =>
    by_cases h : p.1 = c
    · simp [findCol, h]
    · simp only [findCol, if_neg h, List.map_cons, List.mem_cons, ih]
      constructor
      · intro hm; exact Or.inr hm
      · rintro (he | hm)
        · exact absurd he.symm h
        · exact hm

theorem withColumn_of_not_mem (cols : List (String × ColData)) (n : String)
    (cd : ColData) (h : ¬ n ∈ cols.map Prod.fst) :
    withColumn cols n cd = cols ++ [(n, cd)] := by
  have hf : (findCol n cols).isSome = false := by
    rw [Bool.eq_false_iff]
    intro hs
    exact h ((findCol_isSome_iff_mem n cols).mp hs)
  simp [withColumn, hf]

/-- C1 counterexample: the claim says a row whose predecessor is zero has a
null/undefined change rate and "is excluded rather than treated as an
infinite drop".  On `total_count = [0, -1]` at the default threshold `0.05`
the detector computes `change_rate = (-1 - 0) / 0 = -∞` (IEEE float
division) and `-∞ < -0.05` holds, so the row IS returned, flagged as an
infinite drop. -/
theorem C1_zero_predecessor_counterexample :
    exOk (detect_drops c1df "total_count" (mkRat 1 20)) =
      some ⟨[("total_count", .nums [some (.fin (-1))]),
             ("change_rate", .nums [some (.inf false)])]⟩
    ∧ (mkRat 1 20 : ℚ) = 1/20 := by
  constructor
  · decide
  · rw [Rat.mkRat_eq_div]
    norm_num

/-- C1 (amended): for every table containing the requested metric column as
a numeric column (and not already carrying a `change_rate` column), the
detector returns exactly the rows whose
`change_rate = (value[i] - value[i-1]) / value[i-1]` satisfies
`change_rate < -threshold`, each row carrying its original columns plus
`change_rate`; the first row (missing predecessor) and any row whose
predecessor or value is null are excluded; a change rate of exactly `-0.05`
at the default threshold `0.05` is not flagged while `-0.0500001` is.
Amendment forced by the counterexample: a zero predecessor follows IEEE
semantics instead of yielding null — a nonzero drop from zero gives
`change_rate = -∞` and IS flagged, a rise from zero gives `+∞` and is
excluded, and `0 → 0` gives `nan` and is excluded. -/
theorem C1_drop_detector_amended (df : DF) (col : String) (t : ℚ)
    (xs : List (Option FVal))
    (hcol : findCol col df.cols = some (.nums xs))
    (hfresh : ¬ "change_rate" ∈ dfNames df) :
    detect_drops df col t =
      .ok ⟨df.cols.map (fun p => (p.1,
              maskFilterCol ((specChangeList none xs).map (flagCell t)) p.2))
           ++ [("change_rate", .nums (filterCells
                ((specChangeList none xs).map (flagCell t))
                (specChangeList none xs)))]⟩
    ∧ ((specChangeList none xs).map (flagCell t)).head? = xs.head?.map (fun _ => false)
    ∧ flagCell (mkRat 1 20) (some (.fin (-(mkRat 1 20)))) = false
    ∧ flagCell (mkRat 1 20) (some (.fin (mkRat (-500001) 10000000))) = true
    ∧ (∀ c, specChangeRate none c = none)
    ∧ (∀ c, specChangeRate (some c) none = none)
    ∧ specChangeRate (some (.fin 0)) (some (.fin (-1))) = some (.inf false)
    ∧ (∀ q, flagCell q (some (.inf false)) = true)
    ∧ specChangeRate (some (.fin 0)) (some (.fin 1)) = some (.inf true)
    ∧ (∀ q, flagCell q (some (.inf true)) = false)
    ∧ specChangeRate (some (.fin 0)) (some (.fin 0)) = some .nan
    ∧ (∀ q, flagCell q (some .nan) = false) := by
  refine ⟨?_, ?_, by decide, by decide, fun c => rfl, fun c => rfl,
    by decide, fun q => rfl, by decide, fun q => rfl, by decide, fun q => rfl⟩
  · unfold detect_drops
    rw [hcol]
    dsimp only
    rw [withColumn_of_not_mem _ _ _ hfresh, changeRates_eq_spec]
    simp [List.map_append, maskFilterCol]
  · cases xs <;> rfl

/-- Witness for `C1_drop_detector_amended` at the spec's example table. -/
theorem C1_drop_detector_amended_witness :
    detect_drops c1w "total_count" (mkRat 1 20) =
      .ok ⟨c1w.cols.map (fun p => (p.1,
              maskFilterCol ((specChangeList none c1wxs).map (flagCell (mkRat 1 20))) p.2))
           ++ [("change_rate", .nums (filterCells
                ((specChangeList none c1wxs).map (flagCell (mkRat 1 20)))
                (specChangeList none c1wxs)))]⟩ :=
  (C1_drop_detector_amended c1w "total_count" (mkRat 1 20) c1wxs (by decide) (by decide)).1

theorem isSome_ite_some_none {α : Type} (b : Bool) (v : α) :
    (if b then some v else none).isSome = b := by
  cases b <;> simp

theorem parseNum_isSome_eq_isNumericLit (s : String) :
    (parseNum s).isSome = isNumericLit s := by
  rw [parseNum, isNumericLit]
  rcases splitFrac (stripSign s.toList).2 [] with _ | ⟨ip, fp⟩
  · dsimp only
    rw [isSome_ite_some_none]
  · dsimp only
    rw [isSome_ite_some_none]

/-! ## Lemmas about the Schema Normalizer -/

theorem findCol_append_some {β : Type} {c : String} {l1 l2 : List (String × β)}
    {cd : β} (h : findCol c l1 = some cd) : findCol c (l1 ++ l2) = some cd := by
  induction l1 with
  | nil => cases h
  | cons p ps ih =>
    rw [findCol] at h
    rw [List.cons_append, findCol]
    by_cases hp : p.1 = c
    · rw [if_pos hp] at h ⊢
      exact h
    · rw [if_neg hp] at h ⊢
      exact ih h

theorem findCol_append_none {β : Type} {c : String} {l1 l2 : List (String × β)}
    (h : findCol c l1 = none) : findCol c (l1 ++ l2) = findCol c l2 := by
  induction l1 with
  | nil => rfl
  | cons p ps ih =>
    rw [findCol] at h
    rw [List.cons_append, findCol]
    by_cases hp : p.1 = c
    · rw [if_pos hp] at h
      cases h
    · rw [if_neg hp] at h ⊢
      exact ih h

theorem findCol_map_pair {β : Type} (c : String) (l : List String) (g : String → β) :
    findCol c (l.map (fun x => (x, g x))) = if c ∈ l then some (g c) else none := by
  induction l with
  | nil => simp [findCol]
  | cons x xs ih =>
    rw [List.map_cons, findCol]
    by_cases h : x = c
    · subst h
      simp
    · rw [if_neg h, ih]
      by_cases hm : c ∈ xs
      · rw [if_pos hm, if_pos (List.mem_cons_of_mem _ hm)]
      · rw [if_neg hm, if_neg]
        intro hc
        rcases List.mem_cons.mp hc with rfl | hc2
        · exact h rfl
        · exact hm hc2

theorem findCol_mem {β : Type} {c : String} {cd : β} :
    ∀ {l : List (String × β)}, findCol c l = some cd → (c, cd) ∈ l := by
  intro l
  induction l with
  | nil => intro h; cases h
  | cons p ps ih =>
    intro h
    rw [findCol] at h
    by_cases hp : p.1 = c
    · rw [if_pos hp] at h
      injection h with h2
      obtain ⟨n, v⟩ := p
      dsimp at hp h2
      rw [hp, h2] at *
      exact List.mem_cons_self _ _
    · rw [if_neg hp] at h
      exact List.mem_cons_of_mem _ (ih h)

theorem colLen_typedNull (t : CType) (h : Nat) : colLen (typedNullCol t h) = h := by
  cases t <;> simp [typedNullCol, colLen]

theorem colLen_colTake (n : Nat) (cd : ColData) :
    colLen (colTake n cd) = min n (colLen cd) := by
  cases cd <;> simp [colTake, colLen]

theorem castCellsNum_len : ∀ {vs : List (Option String)} {ws : List (Option FVal)},
    castCellsNum vs = .ok ws → ws.length = vs.length := by
  intro vs
  induction vs with
  | nil =>
    intro ws h
    rw [castCellsNum] at h
    injection h with h2
    rw [← h2]
    rfl
  | cons c cs ih =>
    intro ws h
    rw [castCellsNum] at h
    rcases hc : castCellNum c with e | v
    · rw [hc] at h; cases h
    · rw [hc] at h
      rcases hcs : castCellsNum cs with e | vs2
      · rw [hcs] at h; cases h
      · rw [hcs] at h
        injection h with h2
        rw [← h2, List.length_cons, List.length_cons, ih hcs]

theorem castStrict_ok_len {t : CType} {cd cd2 : ColData}
    (h : castStrict t cd = .ok cd2) : colLen cd2 = colLen cd := by
  cases t <;> cases cd <;> rw [castStrict] at h
  · injection h with h2
    rw [← h2]
  · rcases hc : castCellsNum _ with e | ws
    · rw [hc] at h; cases h
    · rw [hc] at h
      injection h with h2
      rw [← h2]
      exact castCellsNum_len hc
  · injection h with h2
    rw [← h2]
    simp [colLen]
  · injection h with h2
    rw [← h2]

theorem castCellsNum_replicate_none (n : Nat) :
    castCellsNum (List.replicate n none) = .ok (List.replicate n none) := by
  induction n with
  | zero => rfl
  | succ m ih => rw [List.replicate_succ, List.replicate_succ, castCellsNum, castCellNum, ih]

theorem castStrict_typedNull (t : CType) (h : Nat) :
    castStrict t (typedNullCol t h) = .ok (typedNullCol t h) := by
  cases t
  · rw [typedNullCol, castStrict]
  · rfl

theorem castAll_names (ac : List String) (ct : String → CType) :
    ∀ {cols cols2 : List (String × ColData)}, castAll ac ct cols = .ok cols2 →
      cols2.map Prod.fst = cols.map Prod.fst := by
  intro cols
  induction cols with
  | nil =>
    intro cols2 h
    rw [castAll] at h
    injection h with h2
    rw [← h2]
  | cons p ps ih =>
    intro cols2 h
    rw [castAll] at h
    rcases hc : (if p.1 ∈ ac then castStrict (ct p.1) p.2 else .ok p.2) with e | cd
    · rw [hc] at h; cases h
    · rw [hc] at h
      rcases hr : castAll ac ct ps with e | rest2
      · rw [hr] at h; cases h
      · rw [hr] at h
        injection h with h2
        rw [← h2, List.map_cons, List.map_cons, ih hr]

theorem castAll_findCol (ac : List String) (ct : String → CType) :
    ∀ {cols cols2 : List (String × ColData)}, castAll ac ct cols = .ok cols2 →
    ∀ {c : String} {cd : ColData}, findCol c cols = some cd →
      ∃ cd2, findCol c cols2 = some cd2 ∧
        (if c ∈ ac then castStrict (ct c) cd = .ok cd2 else cd2 = cd) := by
  intro cols
  induction cols with
  | nil =>
    intro cols2 h c cd hf
    cases hf
  | cons p ps ih =>
    intro cols2 h c cd hf
    rw [castAll] at h
    rcases hc : (if p.1 ∈ ac then castStrict (ct p.1) p.2 else .ok p.2) with e | cdh
    · rw [hc] at h; cases h
    · rw [hc] at h
      rcases hr : castAll ac ct ps with e | rest2
      · rw [hr] at h; cases h
      · rw [hr] at h
        injection h with h2
        rw [← h2]
        rw [findCol] at hf
        by_cases hp : p.1 = c
        · rw [if_pos hp] at hf
          injection hf with h3
          refine ⟨cdh, ?_, ?_⟩
          · rw [findCol, if_pos hp]
          · rw [← hp, ← h3]
            by_cases hmem : p.1 ∈ ac
            · rw [if_pos hmem]
              rw [if_pos hmem] at hc
              exact hc
            · rw [if_neg hmem]
              rw [if_neg hmem] at hc
              injection hc with h4
              exact h4.symm
        · rw [if_neg hp] at hf
          obtain ⟨cd2, hfind, hrel⟩ := ih hr hf
          refine ⟨cd2, ?_, hrel⟩
          rw [findCol, if_neg hp]
          exact hfind

theorem castAll_mem_len (ac : List String) (ct : String → CType) :
    ∀ {cols cols2 : List (String × ColData)}, castAll ac ct cols = .ok cols2 →
    ∀ q ∈ cols2, ∃ p ∈ cols, q.1 = p.1 ∧ colLen q.2 = colLen p.2 := by
  intro cols
  induction cols with
  | nil =>
    intro cols2 h q hq
    rw [castAll] at h
    injection h with h2
    rw [← h2] at hq
    cases hq
  | cons p ps ih =>
    intro cols2 h q hq
    rw [castAll] at h
    rcases hc : (if p.1 ∈ ac then castStrict (ct p.1) p.2 else .ok p.2) with e | cdh
    · rw [hc] at h; cases h
    · rw [hc] at h
      rcases hr : castAll ac ct ps with e | rest2
      · rw [hr] at h; cases h
      · rw [hr] at h
        injection h with h2
        rw [← h2] at hq
        rcases List.mem_cons.mp hq with rfl | hq2
        · refine ⟨p, List.mem_cons_self _ _, rfl, ?_⟩
          by_cases hmem : p.1 ∈ ac
          · rw [if_pos hmem] at hc
            exact castStrict_ok_len hc
          · rw [if_neg hmem] at hc
            injection hc with h4
            rw [h4]
        · obtain ⟨p2, hp2, hname, hlen⟩ := ih hr q hq2
          exact ⟨p2, List.mem_cons_of_mem _ hp2, hname, hlen⟩

theorem castAll_total (ac : List String) (ct : String → CType) :
    ∀ cols : List (String × ColData),
      (∀ p ∈ cols, p.1 ∈ ac → ∃ cd2, castStrict (ct p.1) p.2 = .ok cd2) →
      ∃ cols2, castAll ac ct cols = .ok cols2 := by
  intro cols
  induction cols with
  | nil =>
    intro _
    exact ⟨[], rfl⟩
  | cons p ps ih =>
    intro h
    obtain ⟨rest2, hr⟩ := ih (fun q hq => h q (List.mem_cons_of_mem _ hq))
    by_cases hmem : p.1 ∈ ac
    · obtain ⟨cd2, hc⟩ := h p (List.mem_cons_self _ _) hmem
      refine ⟨(p.1, cd2) :: rest2, ?_⟩
      rw [castAll, if_pos hmem, hc, hr]
    · refine ⟨(p.1, p.2) :: rest2, ?_⟩
      rw [castAll, if_neg hmem, hr]

theorem addMissing_present (ac : List String) (ct : String → CType) (df : DF)
    (c : String) (hc : c ∈ ac) :
    (findCol c (addMissing ac ct df).cols).isSome := by
  rw [addMissing]
  rcases hf : findCol c df.cols with _ | cd
  · rw [findCol_append_none hf, findCol_map_pair, if_pos]
    · rfl
    · rw [List.mem_filter]
      refine ⟨hc, ?_⟩
      simp [dfHasCol, hf]
  · rw [findCol_append_some hf]
    rfl

theorem addMissing_missing (ac : List String) (ct : String → CType) (df : DF)
    (c : String) (hc : c ∈ ac) (hmiss : findCol c df.cols = none) :
    findCol c (addMissing ac ct df).cols = some (typedNullCol (ct c) (dfHeight df)) := by
  rw [addMissing]
  rw [findCol_append_none hmiss, findCol_map_pair, if_pos]
  rw [List.mem_filter]
  refine ⟨hc, ?_⟩
  simp [dfHasCol, hmiss]

theorem addMissing_all_len (ac : List String) (ct : String → CType) (df : DF)
    (hw : dfWF df) :
    ∀ p ∈ (addMissing ac ct df).cols, colLen p.2 = dfHeight df := by
  intro p hp
  rw [addMissing] at hp
  rcases List.mem_append.mp hp with h1 | h2
  · exact hw p h1
  · obtain ⟨c, _, rfl⟩ := List.mem_map.mp h2
    exact colLen_typedNull _ _

theorem selectCols_cons_some (a : String) (as : List String)
    (cols : List (String × ColData)) (cd : ColData)
    (hfa : findCol a cols = some cd) :
    (selectCols (a :: as) cols).cols = (a, cd) :: (selectCols as cols).cols := by
  simp [selectCols, List.filterMap_cons, hfa]

theorem selectCols_names (ac : List String) (cols : List (String × ColData))
    (h : ∀ c ∈ ac, (findCol c cols).isSome) :
    dfNames (selectCols ac cols) = ac := by
  induction ac with
  | nil => rfl
  | cons a as ih =>
    have ha := h a (List.mem_cons_self a as)
    rcases hfa : findCol a cols with _ | cd
    · rw [hfa] at ha; cases ha
    · have htail := ih (fun c hc => h c (List.mem_cons_of_mem _ hc))
      show List.map Prod.fst (selectCols (a :: as) cols).cols = a :: as
      rw [selectCols_cons_some a as cols cd hfa, List.map_cons]
      rw [show List.map Prod.fst (selectCols as cols).cols = as from htail]

theorem selectCols_findCol (ac : List String) (cols : List (String × ColData))
    (c : String) (hc : c ∈ ac) (h : ∀ d ∈ ac, (findCol d cols).isSome) :
    findCol c (selectCols ac cols).cols = findCol c cols := by
  induction ac with
  | nil => cases hc
  | cons a as ih =>
    have ha := h a (List.mem_cons_self a as)
    rcases hfa : findCol a cols with _ | cd
    · rw [hfa] at ha; cases ha
    · rw [selectCols_cons_some a as cols cd hfa, findCol]
      by_cases hac : a = c
      · subst hac
        rw [if_pos rfl, hfa]
      · rw [if_neg hac]
        rcases List.mem_cons.mp hc with rfl | hmem
        · exact absurd rfl hac
        · exact ih hmem (fun d hd => h d (List.mem_cons_of_mem _ hd))

theorem selectCols_mem (ac : List String) (cols : List (String × ColData)) :
    ∀ q ∈ (selectCols ac cols).cols, findCol q.1 cols = some q.2 := by
  intro q hq
  rw [selectCols] at hq
  obtain ⟨c, _, hmap⟩ := List.mem_filterMap.mp hq
  rcases hfc : findCol c cols with _ | cd
  · rw [hfc] at hmap; cases hmap
  · rw [hfc] at hmap
    injection hmap with h2
    rw [← h2]
    exact hfc

theorem normalize_ok_names {ac : List String} {ct : String → CType} {df out : DF}
    (h : normalize ac ct df = .ok out) : dfNames out = ac := by
  rw [normalize] at h
  rcases hca : castAll ac ct (addMissing ac ct df).cols with e | cols2
  · rw [hca] at h; cases h
  · rw [hca] at h
    injection h with h2
    rw [← h2]
    apply selectCols_names
    intro c hc
    rw [findCol_isSome_iff_mem, castAll_names ac ct hca,
      ← findCol_isSome_iff_mem]
    exact addMissing_present ac ct df c hc

theorem normalize_missing_col {ac : List String} {ct : String → CType} {df out : DF}
    (h : normalize ac ct df = .ok out) (c : String) (hc : c ∈ ac)
    (hmiss : findCol c df.cols = none) :
    findCol c out.cols = some (typedNullCol (ct c) (dfHeight df)) := by
  rw [normalize] at h
  rcases hca : castAll ac ct (addMissing ac ct df).cols with e | cols2
  · rw [hca] at h; cases h
  · rw [hca] at h
    injection h with h2
    rw [← h2]
    have hpres2 : ∀ d ∈ ac, (findCol d cols2).isSome := by
      intro d hd
      rw [findCol_isSome_iff_mem, castAll_names ac ct hca, ← findCol_isSome_iff_mem]
      exact addMissing_present ac ct df d hd
    rw [selectCols_findCol ac cols2 c hc hpres2]
    obtain ⟨cd2, hfind, hrel⟩ :=
      castAll_findCol ac ct hca (addMissing_missing ac ct df c hc hmiss)
    rw [if_pos hc, castStrict_typedNull] at hrel
    injection hrel with h3
    rw [hfind, h3]

theorem normalize_all_len {ac : List String} {ct : String → CType} {df out : DF}
    (h : normalize ac ct df = .ok out) (hw : dfWF df) :
    ∀ p ∈ out.cols, colLen p.2 = dfHeight df := by
  rw [normalize] at h
  rcases hca : castAll ac ct (addMissing ac ct df).cols with e | cols2
  · rw [hca] at h; cases h
  · rw [hca] at h
    injection h with h2
    rw [← h2]
    intro p hp
    have hfind := selectCols_mem ac cols2 p hp
    obtain ⟨q, hq, _, hlen⟩ := castAll_mem_len ac ct hca p (findCol_mem hfind)
    rw [hlen]
    exact addMissing_all_len ac ct df hw q hq

theorem normalize_height {ac : List String} {ct : String → CType} {df out : DF}
    (h : normalize ac ct df = .ok out) (hw : dfWF df) (hne : ac ≠ []) :
    dfHeight out = dfHeight df ∧ dfWF out := by
  have hnames := normalize_ok_names h
  have hlen := normalize_all_len h hw
  have hne2 : out.cols ≠ [] := by
    intro hcontra
    apply hne
    rw [← hnames, dfNames, hcontra]
    rfl
  rcases hcols : out.cols with _ | ⟨q, qs⟩
  · exact absurd hcols hne2
  · have hq : colLen q.2 = dfHeight df := by
      apply hlen
      rw [hcols]
      exact List.mem_cons_self _ _
    have hh : dfHeight out = dfHeight df := by
      rw [dfHeight, hcols]
      exact hq
    refine ⟨hh, ?_⟩
    intro p hp
    rw [hh]
    exact hlen p hp

theorem castCellsNum_total {vs : List (Option String)}
    (h : vs.all cellCastOkNum = true) : ∃ ws, castCellsNum vs = .ok ws := by
  induction vs with
  | nil => exact ⟨[], rfl⟩
  | cons c cs ih =>
    rw [List.all_cons, Bool.and_eq_true] at h
    obtain ⟨ws, hws⟩ := ih h.2
    rcases c with _ | s
    · exact ⟨none :: ws, by rw [castCellsNum, castCellNum, hws]⟩
    · have hsome : (parseNum s).isSome = true := by
        rw [parseNum_isSome_eq_isNumericLit]
        exact h.1
      rcases hp : parseNum s with _ | q
      · rw [hp] at hsome; cases hsome
      · exact ⟨some (.fin q) :: ws, by rw [castCellsNum, castCellNum, hp, hws]⟩

theorem castStrict_total {t : CType} {cd : ColData}
    (h : colCastOk t cd = true) : ∃ cd2, castStrict t cd = .ok cd2 := by
  cases t <;> cases cd
  · exact ⟨_, rfl⟩
  · rw [colCastOk] at h
    obtain ⟨ws, hws⟩ := castCellsNum_total h
    exact ⟨.nums ws, by rw [castStrict, hws]⟩
  · exact ⟨_, rfl⟩
  · exact ⟨_, rfl⟩

theorem normalize_total {ac : List String} {ct : String → CType} {df : DF}
    (h : dfCastOk ac ct df = true) : ∃ out, normalize ac ct df = .ok out := by
  have htot : ∀ p ∈ (addMissing ac ct df).cols, p.1 ∈ ac →
      ∃ cd2, castStrict (ct p.1) p.2 = .ok cd2 := by
    intro p hp hmem
    rw [addMissing] at hp
    rcases List.mem_append.mp hp with h1 | h2
    · rw [dfCastOk, List.all_eq_true] at h
      have := h p h1
      rw [Bool.or_eq_true] at this
      rcases this with hno | hok
      · exfalso
        rw [Bool.not_eq_true'] at hno
        rw [decide_eq_false_iff_not] at hno
        exact hno hmem
      · exact castStrict_total hok
    · obtain ⟨c, _, rfl⟩ := List.mem_map.mp h2
      exact ⟨_, castStrict_typedNull _ _⟩
  obtain ⟨cols2, hca⟩ := castAll_total ac ct (addMissing ac ct df).cols htot
  exact ⟨selectCols ac cols2, by rw [normalize, hca]⟩

theorem mem_firstOccList (a : String) (l : List String) :
    a ∈ firstOccList l ↔ a ∈ l := by
  induction l using firstOccList.induct with
  | case1 => rw [firstOccList]
  | case2 c cs ih =>
    rw [firstOccList]
    simp only [List.mem_cons, ih, List.mem_filter]
    constructor
    · rintro (rfl | ⟨h, _⟩)
      · exact Or.inl rfl
      · exact Or.inr h
    · rintro (rfl | h)
      · exact Or.inl rfl
      · by_cases hc : a = c
        · exact Or.inl hc
        · exact Or.inr ⟨h, by simpa using hc⟩

theorem nodup_firstOccList (l : List String) : (firstOccList l).Nodup := by
  induction l using firstOccList.induct with
  | case1 => rw [firstOccList]; exact List.nodup_nil
  | case2 c cs ih =>
    rw [firstOccList]
    refine List.nodup_cons.mpr ⟨?_, ih⟩
    intro hmem
    rw [mem_firstOccList] at hmem
    rcases List.mem_filter.mp hmem with ⟨_, hne⟩
    simp at hne

theorem foldIns_append (acc l1 l2 : List String) :
    foldIns acc (l1 ++ l2) = foldIns (foldIns acc l1) l2 :=
  List.foldl_append _ _ _ _

theorem foldIns_eq (l : List String) : ∀ acc : List String,
    foldIns acc l = acc ++ firstOccList (l.filter (fun c => !(decide (c ∈ acc)))) := by
  induction l with
  | nil =>
    intro acc
    rw [foldIns]
    simp [firstOccList]
  | cons c cs ih =>
    intro acc
    by_cases hc : c ∈ acc
    · have h1 : foldIns acc (c :: cs) = foldIns acc cs := by
        simp [foldIns, List.foldl_cons, hc]
      have h2 : (c :: cs).filter (fun d => !(decide (d ∈ acc)))
          = cs.filter (fun d => !(decide (d ∈ acc))) := by
        simp [List.filter_cons, hc]
      rw [h1, h2, ih]
    · have h1 : foldIns acc (c :: cs) = foldIns (acc ++ [c]) cs := by
        simp [foldIns, List.foldl_cons, hc]
      have h2 : (c :: cs).filter (fun d => !(decide (d ∈ acc)))
          = c :: cs.filter (fun d => !(decide (d ∈ acc))) := by
        simp [List.filter_cons, hc]
      have h3 : cs.filter (fun d => !(decide (d ∈ acc ++ [c])))
          = (cs.filter (fun d => !(decide (d ∈ acc)))).filter (fun d => decide (d ≠ c)) := by
        rw [List.filter_filter]
        apply List.filter_congr
        intro d _
        by_cases hd1 : d = c <;> by_cases hd2 : d ∈ acc <;>
          simp [hd1, hd2, List.mem_append]
      rw [h1, ih, h2, firstOccList, h3, List.append_assoc, List.singleton_append]

theorem foldIns_nil_eq (l : List String) : foldIns [] l = firstOccList l := by
  rw [foldIns_eq]
  have h : l.filter (fun c => !(decide (c ∈ ([] : List String)))) = l := by
    simp
  rw [h, List.nil_append]

theorem headerFold_ok (fs : List SrcFile) : ∀ (skip : Bool) (acc r : List String),
    headerFold skip fs acc = .ok r →
    r = foldIns acc ((fs.filterMap SrcFile.header).flatten) := by
  induction fs with
  | nil =>
    intro skip acc r h
    rw [headerFold] at h
    injection h with h2
    simp [h2.symm, foldIns]
  | cons f fs ih =>
    intro skip acc r h
    rw [headerFold] at h
    rcases hh : f.header with _ | cs
    · rw [hh] at h
      by_cases hs : skip = true
      · rw [hs] at h
        simp only [if_pos rfl] at h
        rw [ih true _ _ h]
        simp [List.filterMap_cons, hh]
      · rw [Bool.not_eq_true] at hs
        rw [hs] at h
        simp only [Bool.false_eq_true, if_false] at h
        cases h
    · rw [hh] at h
      rw [ih skip _ _ h]
      simp [List.filterMap_cons, hh, foldIns_append]

theorem headerFold_true (fs : List SrcFile) : ∀ acc,
    headerFold true fs acc = .ok (foldIns acc ((fs.filterMap SrcFile.header).flatten)) := by
  induction fs with
  | nil => intro acc; simp [headerFold, foldIns]
  | cons f fs ih =>
    intro acc
    rw [headerFold]
    rcases hh : f.header with _ | cs
    · simp only [if_pos rfl]
      rw [ih]
      simp [List.filterMap_cons, hh]
    · simp [hh, ih, List.filterMap_cons, foldIns_append]

theorem headerFold_false_err (f : SrcFile) (hh : f.header = none) :
    ∀ (fs : List SrcFile), f ∈ fs → ∀ acc,
      headerFold false fs acc = .error .headerRead := by
  intro fs
  induction fs with
  | nil => intro hf; cases hf
  | cons g gs ih =>
    intro hf acc
    rw [headerFold]
    rcases hg : g.header with _ | cs
    · simp
    · rcases List.mem_cons.mp hf with hfg | hmem
      · rw [hfg] at hh
        rw [hh] at hg
        cases hg
      · exact ih hmem _

theorem headerScan_ok (files : List SrcFile) (maxF : Option Nat) (skip : Bool)
    (cols : List String) (h : headerScan files maxF skip = .ok cols) :
    cols = addMandatory
      (firstOccList (((scanned files maxF).filterMap SrcFile.header).flatten)) := by
  rw [headerScan] at h
  rcases hf : headerFold skip (scanned files maxF) [] with e | r
  · rw [hf] at h; cases h
  · rw [hf] at h
    injection h with h2
    rw [← h2, headerFold_ok _ skip [] r hf, foldIns_nil_eq]

theorem headerScan_true (files : List SrcFile) (maxF : Option Nat) :
    headerScan files maxF true =
      .ok (addMandatory
        (firstOccList (((scanned files maxF).filterMap SrcFile.header).flatten))) := by
  rw [headerScan, headerFold_true, foldIns_nil_eq]

theorem headerScan_false_err (files : List SrcFile) (maxF : Option Nat)
    (f : SrcFile) (hf : f ∈ scanned files maxF) (hh : f.header = none) :
    headerScan files maxF false = .error .headerRead := by
  rw [headerScan, headerFold_false_err f hh _ hf]

theorem mem_addMandatory (c : String) (l : List String) :
    c ∈ addMandatory l ↔ c ∈ l ∨ c = "total_count" := by
  rw [addMandatory]
  split_ifs with h
  · constructor
    · exact Or.inl
    · rintro (hm | rfl)
      · exact hm
      · exact h
  · simp [List.mem_append]

theorem mem_addMandatory_self (l : List String) : "total_count" ∈ addMandatory l := by
  rw [mem_addMandatory]
  exact Or.inr rfl

theorem addMandatory_nodup (l : List String) (h : l.Nodup) :
    (addMandatory l).Nodup := by
  rw [addMandatory]
  split_ifs with hm
  · exact h
  · rw [List.nodup_append]
    refine ⟨h, List.nodup_singleton _, ?_⟩
    intro a ha hb
    rw [List.mem_singleton] at hb
    rw [hb] at ha
    exact hm ha

/-- C3 counterexample: the claim says the Schema Normalizer "raises no
error" for every RawBatch.  On a batch whose canonically-Numeric column
contains the text `oops` the strict cast executed by `with_columns` raises
(the source's `try` wraps only the construction of the cast expressions,
which never fails), so normalization errors instead of returning. -/
theorem C3_normalizer_error_counterexample :
    exErr (normalize ["total_count"] (fun _ => .numeric) c3bad) =
      some (.castFail "oops") := by decide

/-- C3 (amended): whenever the Schema Normalizer returns a batch — i.e.
whenever no strict-cast failure occurs; totality fails on the code, see the
counterexample and C5 — the returned column sequence equals exactly the
CanonicalSchema's columns in canonical order (so input columns outside the
canonical set are dropped), and every canonical column absent from the
input batch appears as a full-height column of typed nulls. -/
theorem C3_normalizer_columns_amended (ac : List String) (ct : String → CType)
    (df out : DF) (h : exOk (normalize ac ct df) = some out) :
    dfNames out = ac
    ∧ (∀ c ∈ ac, findCol c df.cols = none →
        findCol c out.cols = some (typedNullCol (ct c) (dfHeight df))) := by
  rw [exOk_eq_some] at h
  exact ⟨normalize_ok_names h, fun c hc hm => normalize_missing_col h c hc hm⟩

/-- Witness for `C3_normalizer_columns_amended`. -/
theorem C3_normalizer_columns_amended_witness :
    dfNames c3wout = ["total_count", "region"]
    ∧ (∀ c ∈ ["total_count", "region"], findCol c c3w.cols = none →
        findCol c c3wout.cols = some (typedNullCol (c3ct c) (dfHeight c3w))) :=
  C3_normalizer_columns_amended ["total_count", "region"] c3ct c3w c3wout (by decide)

set_option maxRecDepth 100000 in
/-- C5 (code bug): the claim — and the source's own comment
`# ignore cast failures per-column` (loader.py line 199) — says a cast
failure is recovered locally, leaving the column unconverted.  In the code
the `try` wraps only `cast_cols.append(pl.col(c).cast(...))`, which builds
an expression and cannot fail; the cast itself executes inside
`df.with_columns(cast_cols)` (line 202), outside the `try`, so a failing
cast raises and aborts the whole run — even under `--skip-bad-files`, as
this evaluation of the loader on the failing input shows. -/
theorem C5_cast_failure_aborts_run :
    exErr (load_metrics [c5file] none none true) = some (.castFail "oops")
    ∧ inferType [c5file] "total_count" = .numeric := by
  refine ⟨by decide, by decide⟩

/-! ## Claim C6 -/

/-- C6 (confirmed): for every table and requested metric column absent from
it, the Drop Detector fails with an error naming the missing column (the
spec's ColumnNotFoundError), and the cli's per-metric `try/except` makes a
bad metric name leave the checks of all other requested metrics
unchanged. -/
theorem C6_missing_column_isolated :
    (∀ (df : DF) (col : String) (t : ℚ), findCol col df.cols = none →
      detect_drops df col t = .error (.columnNotFound col))
    ∧ (∀ (df : DF) (t : ℚ) (ms1 ms2 : List String) (m : String),
        findCol m df.cols = none →
        runChecks df (ms1 ++ m :: ms2) t = runChecks df (ms1 ++ ms2) t) := by
  have hdet : ∀ (df : DF) (col : String) (t : ℚ), findCol col df.cols = none →
      detect_drops df col t = .error (.columnNotFound col) := by
    intro df col t h
    rw [detect_drops, h]
  refine ⟨hdet, ?_⟩
  intro df t ms1 ms2 m h
  induction ms1 with
  | nil =>
    rw [List.nil_append, List.nil_append, runChecks, hdet df m t h]
  | cons a as ih =>
    rw [List.cons_append, List.cons_append, runChecks, runChecks]
    rcases detect_drops df a t with e | drops
    · exact ih
    · rw [ih]

/-- Witness for `C6_missing_column_isolated`: the metric `missing` is
absent, fails with the error naming it, and does not disturb the check of
`a`. -/
theorem C6_missing_column_isolated_witness :
    detect_drops c6df "missing" (mkRat 1 20) = .error (.columnNotFound "missing")
    ∧ runChecks c6df ["missing", "a"] (mkRat 1 20) = runChecks c6df ["a"] (mkRat 1 20) :=
  ⟨C6_missing_column_isolated.1 c6df "missing" (mkRat 1 20) (by decide),
   C6_missing_column_isolated.2 c6df (mkRat 1 20) [] ["a"] "missing" (by decide)⟩

/-! ## Lemmas about the Streaming Chunk Writer -/

theorem sumRows_nil : sumRows [] = 0 := rfl

theorem sumRows_cons (df : DF) (l : List DF) :
    sumRows (df :: l) = dfHeight df + sumRows l := by
  simp [sumRows]

theorem sumDecoded_nil : sumDecoded [] = 0 := rfl

theorem sumDecoded_cons (f : SrcFile) (fs : List SrcFile) :
    sumDecoded (f :: fs) = decodedRows f + sumDecoded fs := by
  simp [sumDecoded]

theorem dfHeight_trunc (df : DF) (n : Nat) :
    dfHeight (truncDF df n) = min n (dfHeight df) := by
  rcases df with ⟨cols⟩
  cases cols with
  | nil => simp [truncDF, dfHeight]
  | cons p ps => simp [truncDF, dfHeight, colLen_colTake]

theorem truncDF_wf (df : DF) (n : Nat) (hw : dfWF df) : dfWF (truncDF df n) := by
  intro p hp
  rw [dfHeight_trunc]
  simp only [truncDF] at hp
  rcases List.mem_map.mp hp with ⟨q, hq, rfl⟩
  show colLen (colTake n q.2) = min n (dfHeight df)
  rw [colLen_colTake, hw q hq]

theorem all_take {α : Type} (p : α → Bool) (n : Nat) (l : List α)
    (h : l.all p = true) : (l.take n).all p = true := by
  rw [List.all_eq_true] at h ⊢
  intro x hx
  exact h x (List.take_subset n l hx)

theorem colCastOk_take (t : CType) (cd : ColData) (n : Nat)
    (h : colCastOk t cd = true) : colCastOk t (colTake n cd) = true := by
  cases t <;> cases cd
  · rfl
  · exact all_take _ n _ h
  · rfl
  · rfl

theorem dfCastOk_trunc (ac : List String) (ct : String → CType) (df : DF) (n : Nat)
    (h : dfCastOk ac ct df = true) : dfCastOk ac ct (truncDF df n) = true := by
  rw [dfCastOk, List.all_eq_true] at h ⊢
  intro p hp
  simp only [truncDF] at hp
  rcases List.mem_map.mp hp with ⟨q, hq, rfl⟩
  have hq2 := h q hq
  rw [Bool.or_eq_true] at hq2 ⊢
  rcases hq2 with hno | hok
  · exact Or.inl hno
  · exact Or.inr (colCastOk_take _ _ n hok)

theorem stopFiles_none (w : Nat) : stopFiles none w = false := rfl

theorem writeGo_stop (ac : List String) (ct : String → CType) (s mF : Option Nat)
    (sk : Bool) (fs : List SrcFile) (tot : Nat) (acc : List DF)
    (h : stopFiles mF acc.length = true) :
    writeGo ac ct s mF sk fs tot acc = .ok acc.reverse := by
  cases fs with
  | nil => rfl
  | cons f fs2 => rw [writeGo, if_pos h]

theorem writeGo_skip_none (ac : List String) (ct : String → CType)
    (s mF : Option Nat) (f : SrcFile) (fs : List SrcFile) (tot : Nat)
    (acc : List DF) (hdec : f.decode = none) :
    writeGo ac ct s mF true (f :: fs) tot acc = writeGo ac ct s mF true fs tot acc := by
  by_cases hstop : stopFiles mF acc.length = true
  · rw [writeGo_stop _ _ _ _ _ _ _ _ hstop, writeGo_stop _ _ _ _ _ _ _ _ hstop]
  · rw [writeGo, if_neg hstop, hdec]
    rfl

theorem writeGo_decode_err (ac : List String) (ct : String → CType)
    (s : Option Nat) (f : SrcFile) (fs : List SrcFile) (tot : Nat)
    (acc : List DF) (hdec : f.decode = none) :
    writeGo ac ct s none false (f :: fs) tot acc = .error .decodeFail := by
  rw [writeGo, if_neg (by rw [stopFiles_none]; exact Bool.false_ne_true), hdec]
  rfl

theorem writeGo_skip_filter (ac : List String) (ct : String → CType)
    (s mF : Option Nat) :
    ∀ (fs : List SrcFile) (tot : Nat) (acc : List DF),
      writeGo ac ct s mF true fs tot acc =
        writeGo ac ct s mF true (fs.filter (fun f => f.decode.isSome)) tot acc := by
  intro fs
  induction fs with
  | nil => intro tot acc; rfl
  | cons f fs2 ih =>
    intro tot acc
    rcases hdec : f.decode with _ | df0
    · rw [List.filter_cons_of_neg (by simp [hdec])]
      rw [writeGo_skip_none _ _ _ _ _ _ _ _ hdec]
      exact ih tot acc
    · rw [List.filter_cons_of_pos (by simp [hdec])]
      by_cases hstop : stopFiles mF acc.length = true
      · rw [writeGo_stop _ _ _ _ _ _ _ _ hstop, writeGo_stop _ _ _ _ _ _ _ _ hstop]
      · rw [writeGo, writeGo, if_neg hstop, if_neg hstop, hdec]
        dsimp only
        cases s with
        | none =>
          dsimp only
          rcases hnorm : normalize ac ct df0 with e | nb
          · rfl
          · exact ih _ _
        | some sv =>
          dsimp only
          by_cases hle : sv ≤ tot
          · rw [if_pos hle, if_pos hle]
          · rw [if_neg hle, if_neg hle]
            rcases hnorm : normalize ac ct
                (if sv - tot < dfHeight df0 then truncDF df0 (sv - tot) else df0)
              with e | nb
            · rfl
            · dsimp only
              by_cases hle2 : sv ≤ tot + dfHeight nb
              · rw [if_pos hle2, if_pos hle2]
              · rw [if_neg hle2, if_neg hle2]
                exact ih _ _

theorem writeGo_bounds (ac : List String) (ct : String → CType) (s mF : Option Nat)
    (sk : Bool) (hac : ac ≠ []) :
    ∀ (fs : List SrcFile) (tot : Nat) (acc chunks : List DF),
      (∀ f ∈ fs, ∀ df, f.decode = some df → dfWF df) →
      writeGo ac ct s mF sk fs tot acc = .ok chunks →
      ∃ delta : List DF, chunks = acc.reverse ++ delta
        ∧ (∀ R, s = some R → sumRows delta ≤ R - tot)
        ∧ (∀ F, mF = some F → delta.length ≤ F - acc.length) := by
  intro fs
  induction fs with
  | nil =>
    intro tot acc chunks _ h
    rw [writeGo] at h
    injection h with h2
    refine ⟨[], by rw [← h2, List.append_nil], ?_, ?_⟩
    · intro R _
      exact Nat.zero_le _
    · intro F _
      exact Nat.zero_le _
  | cons f fs2 ih =>
    intro tot acc chunks hw h
    have hw2 : ∀ g ∈ fs2, ∀ df, g.decode = some df → dfWF df :=
      fun g hg => hw g (List.mem_cons_of_mem _ hg)
    by_cases hstop : stopFiles mF acc.length = true
    · rw [writeGo_stop _ _ _ _ _ _ _ _ hstop] at h
      injection h with h2
      refine ⟨[], by rw [← h2, List.append_nil], ?_, ?_⟩
      · intro R _
        exact Nat.zero_le _
      · intro F _
        exact Nat.zero_le _
    · have hstop2 : ∀ F, mF = some F → acc.length < F := by
        intro F hF
        rw [hF, stopFiles] at hstop
        simp only [decide_eq_true_eq] at hstop
        omega
      rw [writeGo, if_neg hstop] at h
      rcases hdec : f.decode with _ | df0
      · rw [hdec] at h
        dsimp only at h
        cases sk with
        | false => cases h
        | true =>
          obtain ⟨delta, hd1, hd2, hd3⟩ := ih tot acc chunks hw2 h
          exact ⟨delta, hd1, hd2, hd3⟩
      · rw [hdec] at h
        dsimp only at h
        have hwdf : dfWF df0 := hw f (List.mem_cons_self _ _) df0 hdec
        cases hs : s with
        | none =>
          subst hs
          dsimp only at h
          rcases hnorm : normalize ac ct df0 with e | nb
          · rw [hnorm] at h; cases h
          · rw [hnorm] at h
            dsimp only at h
            obtain ⟨delta2, hd1, _, hd3⟩ :=
              ih (tot + dfHeight nb) (nb :: acc) chunks hw2 h
            refine ⟨nb :: delta2, ?_, ?_, ?_⟩
            · rw [hd1, List.reverse_cons, List.append_assoc, List.singleton_append]
            · intro R hR
              cases hR
            · intro F hF
              have h1 := hd3 F hF
              have h2 := hstop2 F hF
              simp only [List.length_cons] at h1 ⊢
              omega
        | some sv =>
          subst hs
          dsimp only at h
          by_cases hle : sv ≤ tot
          · rw [if_pos hle] at h
            injection h with h2
            refine ⟨[], by rw [← h2, List.append_nil], ?_, ?_⟩
            · intro R hR
              injection hR with hR2
              subst hR2
              rw [sumRows_nil]
              exact Nat.zero_le _
            · intro F _
              exact Nat.zero_le _
          · rw [if_neg hle] at h
            rcases hnorm : normalize ac ct
                (if sv - tot < dfHeight df0 then truncDF df0 (sv - tot) else df0)
              with e | nb
            · rw [hnorm] at h; cases h
            · rw [hnorm] at h
              dsimp only at h
              have hwdf1 : dfWF (if sv - tot < dfHeight df0 then
                  truncDF df0 (sv - tot) else df0) := by
                split_ifs with htr
                · exact truncDF_wf df0 _ hwdf
                · exact hwdf
              have hnb : dfHeight nb ≤ sv - tot := by
                have hh := (normalize_height hnorm hwdf1 hac).1
                rw [hh]
                split_ifs with htr
                · rw [dfHeight_trunc]
                  omega
                · omega
              by_cases hle2 : sv ≤ tot + dfHeight nb
              · rw [if_pos hle2] at h
                injection h with h2
                refine ⟨[nb], ?_, ?_, ?_⟩
                · rw [← h2, List.reverse_cons]
                · intro R hR
                  injection hR with hR2
                  subst hR2
                  rw [sumRows_cons, sumRows_nil]
                  omega
                · intro F hF
                  have h2f := hstop2 F hF
                  simp only [List.length_singleton]
                  omega
              · rw [if_neg hle2] at h
                obtain ⟨delta2, hd1, hd2, hd3⟩ :=
                  ih (tot + dfHeight nb) (nb :: acc) chunks hw2 h
                refine ⟨nb :: delta2, ?_, ?_, ?_⟩
                · rw [hd1, List.reverse_cons, List.append_assoc, List.singleton_append]
                · intro R hR
                  injection hR with hR2
                  subst hR2
                  have h2r := hd2 _ rfl
                  rw [sumRows_cons]
                  omega
                · intro F hF
                  have h1 := hd3 F hF
                  have h2f := hstop2 F hF
                  simp only [List.length_cons] at h1 ⊢
                  omega

theorem writeGo_exact (ac : List String) (ct : String → CType) (R : Nat)
    (sk : Bool) (hac : ac ≠ []) :
    ∀ (fs : List SrcFile) (tot : Nat) (acc : List DF),
      (∀ f ∈ fs, ∃ df, f.decode = some df ∧ dfWF df ∧ dfCastOk ac ct df = true) →
      ∃ delta : List DF,
        writeGo ac ct (some R) none sk fs tot acc = .ok (acc.reverse ++ delta)
        ∧ sumRows delta = min (R - tot) (sumDecoded fs) := by
  intro fs
  induction fs with
  | nil =>
    intro tot acc _
    refine ⟨[], by rw [writeGo, List.append_nil], ?_⟩
    rw [sumRows_nil, sumDecoded_nil]
    omega
  | cons f fs2 ih =>
    intro tot acc hgood
    obtain ⟨df0, hdec, hwdf, hcast⟩ := hgood f (List.mem_cons_self _ _)
    have hgood2 : ∀ g ∈ fs2, ∃ df, g.decode = some df ∧ dfWF df ∧ dfCastOk ac ct df = true :=
      fun g hg => hgood g (List.mem_cons_of_mem _ hg)
    have hdr : decodedRows f = dfHeight df0 := by
      rw [decodedRows, hdec]
    rw [writeGo, if_neg (by rw [stopFiles_none]; exact Bool.false_ne_true), hdec]
    dsimp only
    by_cases hle : R ≤ tot
    · rw [if_pos hle]
      refine ⟨[], by rw [List.append_nil], ?_⟩
      rw [sumRows_nil]
      omega
    · rw [if_neg hle]
      have hcast1 : dfCastOk ac ct (if R - tot < dfHeight df0 then
          truncDF df0 (R - tot) else df0) = true := by
        split_ifs with htr
        · exact dfCastOk_trunc ac ct df0 _ hcast
        · exact hcast
      have hwdf1 : dfWF (if R - tot < dfHeight df0 then
          truncDF df0 (R - tot) else df0) := by
        split_ifs with htr
        · exact truncDF_wf df0 _ hwdf
        · exact hwdf
      obtain ⟨nb, hnorm⟩ := normalize_total hcast1
      have hnb : dfHeight nb = min (R - tot) (dfHeight df0) := by
        have hh := (normalize_height hnorm hwdf1 hac).1
        rw [hh]
        split_ifs with htr
        · rw [dfHeight_trunc]
        · omega
      rw [hnorm]
      dsimp only
      by_cases hle2 : R ≤ tot + dfHeight nb
      · rw [if_pos hle2]
        refine ⟨[nb], by rw [List.reverse_cons], ?_⟩
        rw [sumRows_cons, sumRows_nil, sumDecoded_cons, hdr, hnb]
        omega
      · rw [if_neg hle2]
        obtain ⟨delta2, hrec, hsum⟩ := ih (tot + dfHeight nb) (nb :: acc) hgood2
        refine ⟨nb :: delta2, ?_, ?_⟩
        · rw [hrec, List.reverse_cons, List.append_assoc, List.singleton_append]
        · rw [sumRows_cons, sumDecoded_cons, hdr, hsum, hnb] at *
          omega

/-! ## Claim C4 -/

/-- C4 counterexample: the claim quantifies over "decodable input files",
but decodability is not enough for the `min(R, sum(ci))` exactness: a
decodable one-row file (`c1 = 1`) whose cell `oops` cannot be strictly cast
to the Numeric canonical type aborts the writer with the cast error (the
C5 bug), so no Dataset with `min(R, sum(ci)) = min(5, 1) = 1` rows
exists. -/
theorem C4_uncastable_aborts_counterexample :
    exErr (writeChunks ["total_count"] (inferTypesOf [c4bad]) (some 5) none false
      [c4bad]) = some (.castFail "oops")
    ∧ c4bad.decode.isSome = true
    ∧ sumDecoded [c4bad] = 1 := by decide

theorem findCol_map_snd {β γ : Type} (c : String) (g : β → γ) :
    ∀ l : List (String × β),
      findCol c (l.map (fun p => (p.1, g p.2))) = (findCol c l).map g := by
  intro l
  induction l with
  | nil => rfl
  | cons p ps ih =>
    rw [List.map_cons, findCol, findCol]
    by_cases hp : p.1 = c
    · rw [if_pos hp, if_pos hp]
      rfl
    · rw [if_neg hp, if_neg hp, ih]

/-- C4 (amended): over input files that decode AND whose canonical columns
cast cleanly — a strict-cast failure aborts the run (the C5 bug), so
decodability alone does not suffice, see the counterexample — the writer's
total row count is exactly `min(R, sum(ci))`; the truncation applied to the
budget-crossing chunk keeps exactly the leading rows of every column
(`DataFrame.head`), so the crossing chunk is truncated, not dropped; and
for every run that returns, total rows never exceed the row budget and
total chunks never exceed the file budget. -/
theorem C4_row_and_file_budgets (ac : List String) (ct : String → CType)
    (files : List SrcFile) (R : Nat) (sk : Bool)
    (hac : ac ≠ [])
    (hwf : ∀ f ∈ files, ∀ df, f.decode = some df → dfWF df) :
    ((∀ f ∈ files, ∃ df, f.decode = some df ∧ dfWF df ∧ dfCastOk ac ct df = true) →
      ∃ chunks, writeChunks ac ct (some R) none sk files = .ok chunks
        ∧ sumRows chunks = min R (sumDecoded files))
    ∧ (∀ (s mF : Option Nat) (chunks : List DF),
        writeChunks ac ct s mF sk files = .ok chunks →
        (∀ R2, s = some R2 → sumRows chunks ≤ R2) ∧
        (∀ F, mF = some F → chunks.length ≤ F))
    ∧ (∀ (df : DF) (n : Nat) (c : String) (vs : List (Option FVal)),
        findCol c df.cols = some (.nums vs) →
        findCol c (truncDF df n).cols = some (.nums (vs.take n))) := by
  refine ⟨?_, ?_, ?_⟩
  · intro hgood
    obtain ⟨delta, hrun, hsum⟩ := writeGo_exact ac ct R sk hac files 0 [] hgood
    refine ⟨delta, ?_, ?_⟩
    · rw [writeChunks, hrun]
      rfl
    · rw [hsum, Nat.sub_zero]
  · intro s mF chunks hrun
    rw [writeChunks] at hrun
    obtain ⟨delta, hd1, hd2, hd3⟩ :=
      writeGo_bounds ac ct s mF sk hac files 0 [] chunks hwf hrun
    have hdelta : chunks = delta := by
      rw [hd1]
      rfl
    constructor
    · intro R2 hs
      have h2 := hd2 R2 hs
      rw [hdelta]
      omega
    · intro F hF
      have h3 := hd3 F hF
      rw [hdelta]
      omega
  · intro df n c vs hcol
    show findCol c (df.cols.map (fun p => (p.1, colTake n p.2))) = _
    rw [findCol_map_snd c (colTake n) df.cols, hcol]
    rfl

/-- Witness for `C4_row_and_file_budgets`: two files of 2 rows each with a
row budget of 3 — the second chunk is truncated to one row. -/
theorem C4_row_and_file_budgets_witness :
    ((∀ f ∈ [c4f1, c4f2], ∃ df, f.decode = some df ∧ dfWF df ∧
        dfCastOk ["total_count"] (fun _ => CType.numeric) df = true) →
      ∃ chunks, writeChunks ["total_count"] (fun _ => CType.numeric)
          (some 3) none false [c4f1, c4f2] = .ok chunks
        ∧ sumRows chunks = min 3 (sumDecoded [c4f1, c4f2]))
    ∧ (∀ (s mF : Option Nat) (chunks : List DF),
        writeChunks ["total_count"] (fun _ => CType.numeric)
          s mF false [c4f1, c4f2] = .ok chunks →
        (∀ R2, s = some R2 → sumRows chunks ≤ R2) ∧
        (∀ F, mF = some F → chunks.length ≤ F))
    ∧ (∀ (df : DF) (n : Nat) (c : String) (vs : List (Option FVal)),
        findCol c df.cols = some (.nums vs) →
        findCol c (truncDF df n).cols = some (.nums (vs.take n))) := by
  refine C4_row_and_file_budgets ["total_count"] (fun _ => CType.numeric)
    [c4f1, c4f2] 3 false (by decide) ?_
  intro f hf df hdf
  fin_cases hf
  · rw [show c4f1.decode = some ⟨[("total_count",
        ColData.nums [some (.fin 1), some (.fin 2)])]⟩ from rfl] at hdf
    injection hdf with h2
    subst h2
    intro p hp
    fin_cases hp
    rfl
  · rw [show c4f2.decode = some ⟨[("total_count",
        ColData.nums [some (.fin 3), some (.fin 4)])]⟩ from rfl] at hdf
    injection hdf with h2
    subst h2
    intro p hp
    fin_cases hp
    rfl

/-- C7 counterexample: under skip-bad-files the claim says a file whose
header cannot be read "is omitted from the run — it contributes neither
columns to the canonical schema nor rows to the Dataset".  The writer loop
however iterates ALL files (loader.py line 165), not only the ones whose
header was readable: file 2's body decodes, so its row is ingested and the
Dataset has height 2, where the claim predicts height 1. -/
theorem C7_header_skip_still_ingested_counterexample :
    exOk (load_metrics [c7f1, c7f2] none none true) =
      some ⟨[("total_count", .nums [some (.fin 3), some (.fin 4)])]⟩ := by decide

/-- C7 (amended): under skip-bad-files a file whose header cannot be read
contributes no columns to the canonical schema (but is still attempted by
the ingestion pass, and contributes rows whenever its body decodes), a file
whose body fails every decode tier contributes neither rows nor a chunk,
and no error propagates; with the policy disabled, an unreadable header or
an undecodable body aborts the run. -/
theorem C7_skip_bad_files_amended :
    (∀ (files : List SrcFile) (maxF : Option Nat),
      headerScan files maxF true =
        .ok (addMandatory (firstOccList
          (((scanned files maxF).filterMap SrcFile.header).flatten))))
    ∧ (∀ (ac : List String) (ct : String → CType) (s mF : Option Nat)
        (fs : List SrcFile) (tot : Nat) (acc : List DF),
        writeGo ac ct s mF true fs tot acc =
          writeGo ac ct s mF true (fs.filter (fun f => f.decode.isSome)) tot acc)
    ∧ (∀ (files : List SrcFile) (maxF : Option Nat) (f : SrcFile),
        f ∈ scanned files maxF → f.header = none →
        headerScan files maxF false = .error .headerRead)
    ∧ (∀ (ac : List String) (ct : String → CType) (s : Option Nat) (f : SrcFile)
        (fs : List SrcFile) (tot : Nat) (acc : List DF), f.decode = none →
        writeGo ac ct s none false (f :: fs) tot acc = .error .decodeFail) :=
  ⟨fun files maxF => headerScan_true files maxF,
   fun ac ct s mF fs tot acc => writeGo_skip_filter ac ct s mF fs tot acc,
   fun files maxF f hf hh => headerScan_false_err files maxF f hf hh,
   fun ac ct s f fs tot acc hdec => writeGo_decode_err ac ct s f fs tot acc hdec⟩

/-- Witness for `C7_skip_bad_files_amended`: with the policy disabled, the
bad file aborts both the header scan and the writer loop. -/
theorem C7_skip_bad_files_amended_witness :
    headerScan [c7w] none false = .error .headerRead
    ∧ writeGo ["total_count"] (fun _ => CType.numeric) none none false [c7w] 0 []
        = .error .decodeFail :=
  ⟨C7_skip_bad_files_amended.2.2.1 [c7w] none c7w (by decide) (by decide),
   C7_skip_bad_files_amended.2.2.2 ["total_count"] (fun _ => CType.numeric)
     none c7w [] 0 [] (by decide)⟩

theorem votes_fold (col : String) :
    ∀ (l : List SrcFile) (a b : Nat),
      l.foldl (fun acc f => (acc.1 + (fileVotes f col).1, acc.2 + (fileVotes f col).2))
          (a, b)
        = (a + (specSamplesOf l col).length,
           b + ((specSamplesOf l col).filter isNumericLit).length) := by
  intro l
  induction l with
  | nil =>
    intro a b
    simp [specSamplesOf]
  | cons f fs ih =>
    intro a b
    rw [List.foldl_cons, ih]
    have hsp : specSamplesOf (f :: fs) col =
        ((sampleCellsOf f col).take 200).filterMap id ++ specSamplesOf fs col := by
      simp [specSamplesOf, List.filterMap_append]
    rw [hsp]
    simp only [fileVotes, List.length_append, List.filter_append, Prod.mk.injEq]
    constructor <;> omega

theorem mkRat_le_iff_div (M N : Nat) :
    (mkRat 19 20 ≤ mkRat (Int.ofNat M) N) ↔ ((19 : ℚ) / 20 ≤ (M : ℚ) / (N : ℚ)) := by
  rw [Rat.mkRat_eq_div, Rat.mkRat_eq_div]
  push_cast
  exact Iff.rfl

theorem inferType_eq_specInferType (files : List SrcFile) (col : String) :
    inferType files col = specInferType files col := by
  have hv : inferVotes files col =
      ((specNonNullSamples files col).length,
       ((specNonNullSamples files col).filter isNumericLit).length) := by
    rw [inferVotes, votes_fold col (files.take 5) 0 0]
    rw [specNonNullSamples]
    simp
  rw [inferType, hv, specInferType]
  dsimp only
  by_cases hN : (specNonNullSamples files col).length = 0
  · rw [if_pos hN, if_pos hN]
  · rw [if_neg hN, if_neg hN]
    by_cases hc : (19 : ℚ) / 20 ≤
        (((specNonNullSamples files col).filter isNumericLit).length : ℚ) /
          ((specNonNullSamples files col).length : ℚ)
    · rw [if_pos ((mkRat_le_iff_div _ _).mpr hc), if_pos hc]
    · rw [if_neg (fun hcon => hc ((mkRat_le_iff_div _ _).mp hcon)), if_neg hc]

theorem inferType_zero_samples (files : List SrcFile) (col : String)
    (h : (specNonNullSamples files col).length = 0) :
    inferType files col = .text := by
  rw [inferType_eq_specInferType, specInferType, if_pos h]

/-- C8 (confirmed): the Type Inferrer samples at most 5 files and at most
200 rows per file, treats sampled values as text, classifies Text on zero
non-null samples, and classifies Numeric exactly when the fraction of
non-null samples matching the numeric-literal pattern is at least
`0.95` (= `19/20`). -/
theorem C8_type_inference (files : List SrcFile) (col : String) :
    inferType files col = specInferType files col
    ∧ (0.95 : ℚ) = 19 / 20 :=
  ⟨inferType_eq_specInferType files col, by norm_num⟩

/-- C2 counterexample: the claim says the mandatory column `total_count` is
"always present — per the data model with Numeric type —".  Presence holds,
but the type conjunct is false: `numeric_cols = {"total_count"}`
(loader.py line 114) is used only for name presence, while
`canonical_types["total_count"]` comes from sampling like every other
column and is `pl.Utf8` (Text) whenever there are zero non-null samples —
exactly the claim's featured scenario in which no input file declares the
column.  Here the only file declares just `date`: `total_count` is added to
the canonical columns but typed Text, not Numeric. -/
theorem C2_total_count_text_counterexample :
    exOk (headerScan [c2cf] none false) = some ["date", "total_count"]
    ∧ inferTypesOf [c2cf] "total_count" = CType.text := by decide

/-- C2 (amended): the canonical column sequence built by schema discovery
contains every column name appearing in any scanned file's header, each
exactly once, positioned at its first occurrence in discovery order, and
`total_count` is always present by name even if no scanned header declares
it.  Its type, however, is not unconditionally Numeric: like every
canonical column it is typed by sampling, and it is Text whenever the
sampled files yield zero non-null values for it — in particular whenever no
input file declares it. -/
theorem C2_schema_union_amended (files : List SrcFile) (maxF : Option Nat)
    (skip : Bool) (cols : List String)
    (h : exOk (headerScan files maxF skip) = some cols) :
    cols = addMandatory
      (firstOccList (((scanned files maxF).filterMap SrcFile.header).flatten))
    ∧ cols.Nodup
    ∧ "total_count" ∈ cols
    ∧ (∀ c, c ∈ cols ↔
        c ∈ ((scanned files maxF).filterMap SrcFile.header).flatten ∨ c = "total_count")
    ∧ (∀ files2 : List SrcFile, (specNonNullSamples files2 "total_count").length = 0 →
        inferTypesOf files2 "total_count" = CType.text) := by
  rw [exOk_eq_some] at h
  have hc := headerScan_ok files maxF skip cols h
  refine ⟨hc, ?_, ?_, ?_, ?_⟩
  · rw [hc]
    exact addMandatory_nodup _ (nodup_firstOccList _)
  · rw [hc]
    exact mem_addMandatory_self _
  · intro c
    rw [hc, mem_addMandatory, mem_firstOccList]
  · intro files2 h2
    exact inferType_zero_samples files2 _ h2

/-- Witness for `C2_schema_union_amended` on two overlapping headers. -/
theorem C2_schema_union_amended_witness :
    ["date", "total_count", "region"] =
      addMandatory
        (firstOccList (((scanned [c2fA, c2fB] none).filterMap SrcFile.header).flatten))
    ∧ List.Nodup ["date", "total_count", "region"]
    ∧ "total_count" ∈ ["date", "total_count", "region"]
    ∧ (∀ c, c ∈ ["date", "total_count", "region"] ↔
        c ∈ ((scanned [c2fA, c2fB] none).filterMap SrcFile.header).flatten
        ∨ c = "total_count")
    ∧ (∀ files2 : List SrcFile, (specNonNullSamples files2 "total_count").length = 0 →
        inferTypesOf files2 "total_count" = CType.text) :=
  C2_schema_union_amended [c2fA, c2fB] none false ["date", "total_count", "region"]
    (by decide)

/-- C9 counterexample: when all files are skipped the loader returns
`pl.DataFrame()` — an empty frame with NO columns — while the claim says
the empty table "carries the CanonicalSchema's columns": here the canonical
schema is `["total_count"]` but the returned table has no columns at
all. -/
theorem C9_empty_result_counterexample :
    exOk (load_metrics [c9f] none none true) = some (⟨[]⟩ : DF)
    ∧ exOk (headerScan [c9f] none true) = some ["total_count"]
    ∧ dfNames (⟨[]⟩ : DF) = [] := by decide

/-- C9 (amended): if the writer ultimately writes zero chunks the loader
does not fail — it returns an empty table — but that table carries NO
columns (the empty schema), not the CanonicalSchema's columns. -/
theorem C9_zero_chunks_amended (files : List SrcFile) (s mF : Option Nat)
    (sk : Bool) (ac : List String)
    (hne : files ≠ [])
    (hsc : exOk (headerScan files mF sk) = some ac)
    (hwr : exOk (writeChunks ac (inferTypesOf files) s mF sk files) = some []) :
    load_metrics files s mF sk = .ok ⟨[]⟩ ∧ dfNames (⟨[]⟩ : DF) = [] := by
  rw [exOk_eq_some] at hsc hwr
  refine ⟨?_, rfl⟩
  have hni : ¬(files.isEmpty = true) := by
    rw [List.isEmpty_iff]
    exact hne
  rw [load_metrics, if_neg hni, hsc]
  dsimp only
  rw [hwr]
  rfl

/-- Witness for `C9_zero_chunks_amended` on a run whose only file is
skipped. -/
theorem C9_zero_chunks_amended_witness :
    load_metrics [c9f] none none true = .ok ⟨[]⟩ ∧ dfNames (⟨[]⟩ : DF) = [] :=
  C9_zero_chunks_amended [c9f] none none true ["total_count"]
    (by decide) (by decide) (by decide)

/-- C10 (confirmed): type inference always samples the first `min(5, N)`
files of the full discovery listing, ignoring the file budget — the
scanning and ingestion passes truncate at `max_files` but the sampling pass
does not — and rows of budget-excluded files can decide the classification:
with `max_files = 1`, file 2's samples flip `total_count` from Text
(0/1 matches) to Numeric (19/20 matches), and the single ingested chunk
(file 1 only) is indeed cast to a numeric column. -/
theorem C10_inference_ignores_file_budget :
    (∀ (files : List SrcFile) (col : String),
      inferType files col = inferType (files.take 5) col)
    ∧ (∀ (files : List SrcFile) (m : Nat), scanned files (some m) = files.take m)
    ∧ inferType [c10f1, c10f2] "total_count" = .numeric
    ∧ inferType [c10f1] "total_count" = .text
    ∧ exOk (load_metrics [c10f1, c10f2] none (some 1) false) =
        some ⟨[("total_count", .nums [some (.fin 1)])]⟩ := by
  refine ⟨?_, fun files m => rfl, by decide, by decide, by decide⟩
  intro files col
  simp [inferType, inferVotes, List.take_take]

end Overseer

